import Mathlib

/-!
# Episode explorer scripts: a shallow embedding

Two browser scripts (`students/matej-popovski-5773/script.js` and
`students/filip-gjorgjevski-5349/script.js`) load a list of episodes and filter, sort,
group and export it.  The pure data transformations of both scripts are embedded here as
Lean functions; the DOM plumbing around them is left out.

Conventions of the embedding

* A JavaScript string is the list of its characters (`Str`).  Ordering of strings goes through
  the UTF-16 code units, as `<` on strings does.
* A JavaScript number is an integer or `NaN` (`JSNum`), and integers are exact; fractions,
  infinities, rounding and the exponent notation of very large numbers are outside the model.
  A string that spells a fractional, exponent or `Infinity` literal is therefore outside the
  domain of `toNumber`.
* `toLowerCase` lowers the letters `A`..`Z`; other characters are left as they are.
* Global mutable `state` is passed explicitly.
-/

namespace DoctorWho

/-! ## JavaScript values -/

/-- A JavaScript string. -/
abbrev Str := List Char

/-- A JavaScript number of the model: an integer or `NaN`. -/
inductive JSNum where
  | nan
  | int (n : Int)
  deriving DecidableEq

/-- A scalar JSON value as it is found in an episode record. -/
inductive JSVal where
  | undefined
  | null
  | num (n : Int)
  | str (s : Str)
  deriving DecidableEq

/-- Truthiness of a number: `NaN` and `0` are falsy. -/
def JSNum.truthy : JSNum → Bool
  | .nan => false
  | .int n => n != 0

/-- Truthiness of a value: `undefined`, `null`, `0` and the empty string are falsy. -/
def JSVal.truthy : JSVal → Bool
  | .undefined => false
  | .null => false
  | .num n => n != 0
  | .str s => !s.isEmpty

/-- Decimal digits of a natural number. -/
def natToStr (n : Nat) : Str := Nat.toDigits 10 n

/-- The string form of an integer number: `String(n)`. -/
def intToStr (n : Int) : Str :=
  if n < 0 then '-' :: natToStr n.natAbs else natToStr n.toNat

/-- The string form of a value: `String(v)`. -/
def JSVal.toStr : JSVal → Str
  | .undefined => "undefined".toList
  | .null => "null".toList
  | .num n => intToStr n
  | .str s => s

/-- The class `\d` of regular expressions. -/
def isDigit (c : Char) : Bool := '0' ≤ c && c ≤ '9'

/-- The class `\w` of regular expressions: `[A-Za-z0-9_]`. -/
def isWordChar (c : Char) : Bool :=
  ('a' ≤ c && c ≤ 'z') || ('A' ≤ c && c ≤ 'Z') || ('0' ≤ c && c ≤ '9') || c == '_'

/-- The class `\s` of regular expressions, which is also the white space that `parseInt` and
`Number` strip: the ECMAScript WhiteSpace and LineTerminator code points. -/
def isSpace (c : Char) : Bool :=
  let n := c.toNat
  n == 0x09 || n == 0x0A || n == 0x0B || n == 0x0C || n == 0x0D || n == 0x20 || n == 0xA0 ||
  n == 0x1680 || (0x2000 ≤ n && n ≤ 0x200A) || n == 0x2028 || n == 0x2029 || n == 0x202F ||
  n == 0x205F || n == 0x3000 || n == 0xFEFF

/-- The value of a character as a digit in a radix up to 36. -/
def digitVal (c : Char) : Option Nat :=
  if '0' ≤ c && c ≤ '9' then some (c.toNat - '0'.toNat)
  else if 'a' ≤ c && c ≤ 'z' then some (c.toNat - 'a'.toNat + 10)
  else if 'A' ≤ c && c ≤ 'Z' then some (c.toNat - 'A'.toNat + 10)
  else none

/-- Whether a character is a digit of the given radix. -/
def isRadixDigit (radix : Nat) (c : Char) : Bool :=
  match digitVal c with
  | some d => d < radix
  | none => false

/-- The number spelled by a list of digits of the given radix. -/
def digitsValue (radix : Nat) (ds : Str) : Nat :=
  ds.foldl (fun acc c => acc * radix + (digitVal c).getD 0) 0

/-- The leading white space removed. -/
def trimStart (s : Str) : Str := s.dropWhile isSpace

/-- White space removed at both ends. -/
def trim (s : Str) : Str := (trimStart (trimStart s).reverse).reverse

/-- The sign that `parseInt` reads off, with the rest of the input. -/
def parseSign : Str → Bool × Str
  | '-' :: r => (true, r)
  | '+' :: r => (false, r)
  | r => (false, r)

/-- The radix that `parseInt` settles on when it is given none, with the rest of the input: 16
after a prefix `0x` or `0X`, which is removed, and 10 otherwise. -/
def parseRadix : Str → Nat × Str
  | '0' :: 'x' :: r => (16, r)
  | '0' :: 'X' :: r => (16, r)
  | r => (10, r)

/-- The ECMAScript `parseInt` with no radix argument, on a string: leading white space and a
sign are skipped, a `0x` prefix selects radix 16, and the longest run of digits is read. -/
def parseIntStr (s : Str) : JSNum :=
  let signed := parseSign (trimStart s)
  let based := parseRadix signed.2
  let ds := based.2.takeWhile (isRadixDigit based.1)
  if ds.isEmpty then .nan
  else if signed.1 then .int (-(digitsValue based.1 ds : Int)) else .int (digitsValue based.1 ds)

/-- The call `parseInt(v)`: the argument is first turned into a string. -/
def parseInt (v : JSVal) : JSNum := parseIntStr v.toStr

/-- The numeric value of a string (`StringToNumber`) for the integer literals: blank is `0`, an
optionally signed run of decimal digits, or an unsigned `0x`, `0o`, `0b` literal.  Anything
else is `NaN`. -/
def stringToNumber (s : Str) : JSNum :=
  match trim s with
  | [] => .int 0
  | '0' :: 'x' :: d :: r | '0' :: 'X' :: d :: r =>
      if (d :: r).all (isRadixDigit 16) then .int (digitsValue 16 (d :: r)) else .nan
  | '0' :: 'o' :: d :: r | '0' :: 'O' :: d :: r =>
      if (d :: r).all (isRadixDigit 8) then .int (digitsValue 8 (d :: r)) else .nan
  | '0' :: 'b' :: d :: r | '0' :: 'B' :: d :: r =>
      if (d :: r).all (isRadixDigit 2) then .int (digitsValue 2 (d :: r)) else .nan
  | '-' :: d :: r => if (d :: r).all isDigit then .int (-(digitsValue 10 (d :: r) : Int)) else .nan
  | '+' :: d :: r => if (d :: r).all isDigit then .int (digitsValue 10 (d :: r)) else .nan
  | t => if t.all isDigit then .int (digitsValue 10 t) else .nan

/-- The numeric value of a value: `Number(v)`. -/
def JSVal.toNumber : JSVal → JSNum
  | .undefined => .nan
  | .null => .int 0
  | .num n => .int n
  | .str s => stringToNumber s

/-- Subtraction of numbers. -/
def JSNum.sub : JSNum → JSNum → JSNum
  | .int a, .int b => .int (a - b)
  | _, _ => .nan

/-- The comparison `a < b` of numbers; false when either is `NaN`. -/
def JSNum.lt : JSNum → JSNum → Bool
  | .int a, .int b => a < b
  | _, _ => false

/-- The comparison `a <= b` of numbers; false when either is `NaN`. -/
def JSNum.le : JSNum → JSNum → Bool
  | .int a, .int b => a ≤ b
  | _, _ => false

/-- The UTF-16 code units of a string. -/
def utf16 (s : Str) : List Nat :=
  s.flatMap fun c =>
    if c.toNat < 0x10000 then [c.toNat]
    else [0xD800 + (c.toNat - 0x10000) / 0x400, 0xDC00 + (c.toNat - 0x10000) % 0x400]

/-- Lexicographic order on code unit sequences. -/
def lexLt : List Nat → List Nat → Bool
  | [], [] => false
  | [], _ :: _ => true
  | _ :: _, [] => false
  | a :: as, b :: bs => if a < b then true else if b < a then false else lexLt as bs

/-- The comparison `a < b` of strings. -/
def strLt (a b : Str) : Bool := lexLt (utf16 a) (utf16 b)

/-- The comparison `a < b` of values: two strings compare as strings, anything else as
numbers. -/
def JSVal.lt : JSVal → JSVal → Bool
  | .str a, .str b => strLt a b
  | a, b => a.toNumber.lt b.toNumber

/-- The comparison `a <= b` of values: two strings compare as strings, anything else as
numbers. -/
def JSVal.le : JSVal → JSVal → Bool
  | .str a, .str b => !strLt b a
  | a, b => a.toNumber.le b.toNumber

/-- The method `toLowerCase`. -/
def toLowerCase (s : Str) : Str := s.map Char.toLower

/-- The method `includes`: `t.includes(s)`. -/
def includes (t s : Str) : Bool := t.tails.any fun u => s.isPrefixOf u

/-- The method `startsWith`: `t.startsWith(s)`. -/
def startsWith (t s : Str) : Bool := s.isPrefixOf t

/-- The method `padStart(2, c)` with a one-character filler. -/
def padStart2 (c : Char) (s : Str) : Str := List.replicate (2 - s.length) c ++ s

/-- The expression `x || ''` for a string that may be absent. -/
def orEmpty : Option Str → Str
  | some s => s
  | none => []

/-- The result of a comparator as `Array.prototype.sort` reads it: `NaN` counts as `0`. -/
def JSNum.order : JSNum → Int
  | .nan => 0
  | .int n => n

/-- The method `Array.prototype.sort(cmp)`.  The standard asks for a stable sort; the model is
the stable insertion sort, which yields the one order that a stable sort can produce whenever
the comparator is consistent. -/
def jsSort {α : Type} (cmp : α → α → JSNum) (l : List α) : List α :=
  l.insertionSort fun a b => (cmp a b).order ≤ 0

/-- The host's `Date`: the time value of `new Date(y, m, d)` and of `new Date(s)`. -/
structure DateHost where
  makeTime : JSNum → JSNum → JSNum → JSNum
  parse : Str → JSNum

/-! ## Episodes -/

/-- The `doctor` object of an episode. -/
structure Doctor where
  actor : Option Str := none
  incarnation : Option Str := none
  deriving DecidableEq

/-- The `companion` object of an episode. -/
structure Companion where
  actor : Option Str := none
  character : Option Str := none
  deriving DecidableEq

/-- An entry of the `cast` array. -/
structure CastMember where
  actor : Option Str := none
  character : Option Str := none
  deriving DecidableEq

/-- An episode record.  An absent (or `null`) property is `none`. -/
structure Episode where
  rank : JSVal := .undefined
  title : Option Str := none
  series : JSVal := .undefined
  era : Option Str := none
  broadcast_date : Option Str := none
  director : Option Str := none
  writer : Option Str := none
  doctor : Option Doctor := none
  companion : Option Companion := none
  cast : Option (List CastMember) := none
  plot : Option Str := none
  deriving DecidableEq

/-- The names a sort can be requested by: the properties of a record, the computed columns,
and `other` for a name that is no property of the record. -/
inductive Field where
  | rank | title | series | era | broadcast_date | director | writer
  | doctor | companion | cast | cast_count | plot | relevance
  | other (name : Str)
  deriving DecidableEq

/-- The name of a field as it is written in the scripts. -/
def Field.name : Field → Str
  | .rank => "rank".toList
  | .title => "title".toList
  | .series => "series".toList
  | .era => "era".toList
  | .broadcast_date => "broadcast_date".toList
  | .director => "director".toList
  | .writer => "writer".toList
  | .doctor => "doctor".toList
  | .companion => "companion".toList
  | .cast => "cast".toList
  | .cast_count => "cast_count".toList
  | .plot => "plot".toList
  | .relevance => "relevance".toList
  | .other name => name

/-- A string property as a value. -/
def optStr : Option Str → JSVal
  | some s => .str s
  | none => .undefined

/-- The property access `episode[field]` for the scalar properties of a record. -/
def Episode.get (e : Episode) : Field → JSVal
  | .rank => e.rank
  | .title => optStr e.title
  | .series => e.series
  | .era => optStr e.era
  | .broadcast_date => optStr e.broadcast_date
  | .director => optStr e.director
  | .writer => optStr e.writer
  | .plot => optStr e.plot
  | _ => .undefined

namespace Matej

/-! ## matej-popovski-5773: dates -/

/-- Four digits and nothing after them: `(\d{4})$`. -/
def fourDigitsEnd : Str → Option Str
  | [a, b, c, d] => if isDigit a && isDigit b && isDigit c && isDigit d then some [a, b, c, d]
      else none
  | _ => none

/-- One or two digits, as many as there are: `(\d{1,2})`, with the rest of the input.  In both
patterns that use it the next character asked for is not a digit, so that the greedy choice
is the only one that can succeed. -/
def oneOrTwoDigits : Str → Option (Str × Str)
  | a :: b :: r =>
      if isDigit a then (if isDigit b then some ([a, b], r) else some ([a], b :: r)) else none
  | [a] => if isDigit a then some ([a], []) else none
  | [] => none

/-- The pattern `^(\d{4})-(\d{2})-(\d{2})$`, with its three captures. -/
def isoMatch : Str → Option (Str × Str × Str)
  | [y1, y2, y3, y4, '-', m1, m2, '-', d1, d2] =>
      if isDigit y1 && isDigit y2 && isDigit y3 && isDigit y4 && isDigit m1 && isDigit m2 &&
          isDigit d1 && isDigit d2 then
        some ([y1, y2, y3, y4], [m1, m2], [d1, d2])
      else none
  | _ => none

/-- The pattern `^(\d{1,2})\/(\d{1,2})\/(\d{4})$`, with its captures day, month, year. -/
def ukMatch (s : Str) : Option (Str × Str × Str) :=
  match oneOrTwoDigits s with
  | some (day, '/' :: r) =>
    match oneOrTwoDigits r with
    | some (month, '/' :: r) =>
      match fourDigitsEnd r with
      | some year => some (day, month, year)
      | none => none
    | _ => none
  | _ => none

/-- The pattern `^(\w+)\s+(\d{1,2}),\s+(\d{4})$`, with its captures month name, day, year.  The
classes `\w` and `\s` are disjoint and `\d` lies within `\w`, so each greedy run is the longest
one. -/
def longMatch (s : Str) : Option (Str × Str × Str) :=
  let monthName := s.takeWhile isWordChar
  let r := s.dropWhile isWordChar
  if monthName.isEmpty || (r.takeWhile isSpace).isEmpty then none
  else
    match oneOrTwoDigits (r.dropWhile isSpace) with
    | some (day, ',' :: r) =>
      if (r.takeWhile isSpace).isEmpty then none
      else
        match fourDigitsEnd (r.dropWhile isSpace) with
        | some year => some (monthName, day, year)
        | none => none
    | _ => none

/-- The pattern `^(\d{4})$`. -/
def yearMatch (s : Str) : Option Str := fourDigitsEnd s

/-- Whether the input starts with four digits that are not followed by a word character. -/
def fourDigitsThenBoundary : Str → Option Str
  | a :: b :: c :: d :: r =>
      if isDigit a && isDigit b && isDigit c && isDigit d &&
          !(match r with | [] => false | x :: _ => isWordChar x) then
        some [a, b, c, d]
      else none
  | _ => none

/-- The search for `\b(\d{4})\b` from left to right; `prevWord` tells whether the character
before the current position is a word character. -/
def boundedYearSearch (prevWord : Bool) : Str → Option Str
  | [] => none
  | c :: cs =>
    match (if prevWord then none else fourDigitsThenBoundary (c :: cs)) with
    | some year => some year
    | none => boundedYearSearch (isWordChar c) cs

/-- The first match of `\b(\d{4})\b` anywhere in the string. -/
def boundedYearMatch (s : Str) : Option Str := boundedYearSearch false s

/-- The table `monthNames` of `formatFullDate`. -/
def monthNames : List Str :=
  ["January".toList, "February".toList, "March".toList, "April".toList, "May".toList,
   "June".toList, "July".toList, "August".toList, "September".toList, "October".toList,
   "November".toList, "December".toList]

/-- The call `monthNames.findIndex(name => name.toLowerCase() === monthName.toLowerCase())`;
`none` stands for `-1`. -/
def monthIndex (monthName : Str) : Option Nat :=
  let i := monthNames.findIdx fun name => toLowerCase name == toLowerCase monthName
  if i < monthNames.length then some i else none

/-- The function `formatFullDate`. -/
def formatFullDate (dateStr : Option Str) : Str :=
  match dateStr with
  | none => "Unknown".toList
  | some [] => "Unknown".toList
  | some dateString =>
    match isoMatch dateString with
    | some _ => dateString
    | none =>
      match ukMatch dateString with
      | some (day, month, year) => year ++ '-' :: padStart2 '0' month ++ '-' :: padStart2 '0' day
      | none =>
        let long : Option Str :=
          match longMatch dateString with
          | some (monthName, day, year) =>
            match monthIndex monthName with
            | some i =>
              some (year ++ '-' :: padStart2 '0' (natToStr (i + 1)) ++ '-' :: padStart2 '0' day)
            | none => none
          | none => none
        match long with
        | some r => r
        | none =>
          match yearMatch dateString with
          | some year => year ++ "-01-01".toList
          | none => dateString

/-- The function `extractYear`; `none` stands for `null`.  Each capture that is handed to
`parseInt` consists of four decimal digits, on which `parseInt` yields `digitsValue 10` (see
`parseIntStr_digits4`). -/
def extractYear (dateStr : Option Str) : Option Nat :=
  match dateStr with
  | none => none
  | some [] => none
  | some dateString =>
    match isoMatch dateString with
    | some (year, _, _) => some (digitsValue 10 year)
    | none =>
      match ukMatch dateString with
      | some (_, _, year) => some (digitsValue 10 year)
      | none =>
        match boundedYearMatch dateString with
        | some year => some (digitsValue 10 year)
        | none =>
          match yearMatch dateString with
          | some year => some (digitsValue 10 year)
          | none => none

/-- The function `parseDate`, as the time value of the date it returns: that of
`new Date(year, 0, 1)` when a non-zero year is extracted and that of `new Date(0)` otherwise. -/
def parseDate (host : DateHost) (dateStr : Option Str) : JSNum :=
  match extractYear dateStr with
  | some year => if year ≠ 0 then host.makeTime (.int year) (.int 0) (.int 1) else .int 0
  | none => .int 0

/-! ## matej-popovski-5773: formatting -/

/-- The replacement `replace(/\s*&\s*/g, ', ')`, scanning with the white space that is still
undecided in `pending`; `skipping` is set while the white space after an `&` is consumed. -/
def replaceAmpAux : Str → Bool → Str → Str
  | pending, _, [] => pending
  | pending, skipping, c :: cs =>
    if c = '&' then ',' :: ' ' :: replaceAmpAux [] true cs
    else if isSpace c then
      if skipping then replaceAmpAux [] true cs else replaceAmpAux (pending ++ [c]) false cs
    else pending ++ c :: replaceAmpAux [] false cs

/-- Whether the input reads `and` followed by white space. -/
def startsWithAnd : Str → Bool
  | 'a' :: 'n' :: 'd' :: x :: _ => isSpace x
  | _ => false

/-- The replacement `replace(/\s+and\s+/g, ', ')`, scanning with the white space that is still
undecided in `pending`; `skip` counts the letters of a matched `and` still to pass, and
`dropping` is set while the white space after it is consumed. -/
def replaceAndAux : Str → Nat → Bool → Str → Str
  | pending, _, _, [] => pending
  | pending, skip + 1, dropping, _ :: cs => replaceAndAux pending skip dropping cs
  | pending, 0, dropping, c :: cs =>
    if isSpace c then
      if dropping then replaceAndAux [] 0 true cs else replaceAndAux (pending ++ [c]) 0 false cs
    else if !pending.isEmpty && startsWithAnd (c :: cs) then
      ',' :: ' ' :: replaceAndAux [] 2 true cs
    else pending ++ c :: replaceAndAux [] 0 false cs

/-- The function `formatWriters`. -/
def formatWriters (writer : Option Str) : Str :=
  match writer with
  | none => "Unknown".toList
  | some [] => "Unknown".toList
  | some w => replaceAndAux [] 0 false (replaceAmpAux [] false w)

/-- The function `formatDoctor`. -/
def formatDoctor (doctor : Option Doctor) : Str :=
  match doctor with
  | none => "Unknown Doctor".toList
  | some d =>
    match d.actor with
    | none => "Unknown Doctor".toList
    | some [] => "Unknown Doctor".toList
    | some actor =>
      let incarnation := match d.incarnation with
        | none => "Unknown".toList
        | some [] => "Unknown".toList
        | some i => i
      actor ++ " (".toList ++ incarnation ++ ")".toList

/-- The function `formatCompanion`. -/
def formatCompanion (companion : Option Companion) : Str :=
  match companion with
  | none => "—".toList
  | some c =>
    match c.actor with
    | none => "—".toList
    | some [] => "—".toList
    | some actor =>
      let character := match c.character with
        | none => "Unknown Character".toList
        | some [] => "Unknown Character".toList
        | some ch => ch
      actor ++ " (".toList ++ character ++ ")".toList

/-- The function `getFieldValue`. -/
def getFieldValue (episode : Episode) (field : Field) : JSVal :=
  match field with
  | .cast => .num (match episode.cast with | some c => c.length | none => 0)
  | .doctor => .str (formatDoctor episode.doctor)
  | .companion => .str (formatCompanion episode.companion)
  | .writer => .str (formatWriters episode.writer)
  | .plot => .str (orEmpty episode.plot)
  | f => if (episode.get f).truthy then episode.get f else .str []

/-! ## matej-popovski-5773: state, filtering and sorting -/

/-- The record `state.sort`. -/
structure SortState where
  field : Field := .rank
  ascending : Bool := true
  deriving DecidableEq

/-- The record `state.filters`. -/
structure Filters where
  name : Str := []
  era : Str := []
  doctor : Str := []
  companion : Str := []
  deriving DecidableEq

/-- The part of the global `state` that the query pipeline reads and writes. -/
structure State where
  episodes : List Episode := []
  filtered : List Episode := []
  sort : SortState := {}
  filters : Filters := {}
  deriving DecidableEq

/-- The function `calculateRelevance`. -/
def calculateRelevance (episode : Episode) (searchTerm : Str) : Int :=
  let title := toLowerCase (orEmpty episode.title)
  if title = searchTerm then 4
  else if startsWith title searchTerm then 3
  else if includes title searchTerm then 2
  else 1

/-- The expression `a.rank || 0`. -/
def rankOrZero (e : Episode) : JSVal := if e.rank.truthy then e.rank else .num 0

/-- The comparator of `applySortWithRelevance`. -/
def relevanceCompare (searchTerm : Str) (a b : Episode) : JSNum :=
  let scoreA := calculateRelevance a searchTerm
  let scoreB := calculateRelevance b searchTerm
  if scoreA ≠ scoreB then .int (scoreB - scoreA)
  else (rankOrZero a).toNumber.sub (rankOrZero b).toNumber

/-- The function `applySortWithRelevance`. -/
def applySortWithRelevance (st : State) : State :=
  { st with filtered := jsSort (relevanceCompare st.filters.name) st.filtered }

/-- The expression `Number(v) || 0`. -/
def numberOrZero (v : JSVal) : Int := v.toNumber.order

/-- The three-way result of the regular comparator: `-1`, `1` or `0`. -/
def threeWay (lt gt : Bool) : Int := if lt then -1 else if gt then 1 else 0

/-- The comparator of the regular branch of `sortEpisodes`. -/
def fieldCompare (host : DateHost) (field : Field) (ascending : Bool) (a b : Episode) : JSNum :=
  let aVal := getFieldValue a field
  let bVal := getFieldValue b field
  let result :=
    if field = .rank ∨ field = .series ∨ field = .cast then
      threeWay (numberOrZero aVal < numberOrZero bVal) (numberOrZero aVal > numberOrZero bVal)
    else if field = .broadcast_date then
      threeWay ((parseDate host a.broadcast_date).lt (parseDate host b.broadcast_date))
        ((parseDate host b.broadcast_date).lt (parseDate host a.broadcast_date))
    else
      threeWay (strLt (toLowerCase aVal.toStr) (toLowerCase bVal.toStr))
        (strLt (toLowerCase bVal.toStr) (toLowerCase aVal.toStr))
  .int (if ascending then result else -result)

/-- The function `sortEpisodes`, up to the display calls at its end. -/
def sortEpisodes (host : DateHost) (st : State) (field : Field) : State :=
  let sort : SortState :=
    if st.sort.field = field then ⟨st.sort.field, !st.sort.ascending⟩ else ⟨field, true⟩
  let st := { st with sort := sort }
  if !st.filters.name.isEmpty && field ≠ .relevance then applySortWithRelevance st
  else { st with filtered := jsSort (fieldCompare host field st.sort.ascending) st.filtered }

/-- The expression `episode.doctor?.actor || ''`. -/
def doctorName (episode : Episode) : Str := orEmpty (episode.doctor.bind fun d => d.actor)

/-- The expression `episode.companion?.actor || ''`. -/
def companionName (episode : Episode) : Str := orEmpty (episode.companion.bind fun c => c.actor)

/-- The callback that `filterEpisodes` hands to `filter`: each active filter may reject the
episode, in the order name, era, doctor, companion. -/
def filterCallback (filters : Filters) (episode : Episode) : Bool :=
  if !filters.name.isEmpty && !includes (toLowerCase (orEmpty episode.title)) filters.name then
    false
  else if !filters.era.isEmpty && episode.era ≠ some filters.era then false
  else if !filters.doctor.isEmpty && !includes (doctorName episode) filters.doctor then false
  else if !filters.companion.isEmpty && !includes (companionName episode) filters.companion then
    false
  else true

/-- The function `filterEpisodes`: the episodes are filtered and the current sort is applied
again through `sortEpisodes(state.sort.field)`. -/
def filterEpisodes (host : DateHost) (st : State) : State :=
  sortEpisodes host { st with filtered := st.episodes.filter (filterCallback st.filters) }
    st.sort.field

/-! ## matej-popovski-5773: decade groups -/

/-- The statements `if (!decades[decade]) decades[decade] = []; decades[decade].push(episode)`
on the object `decades`, kept as a list of keys with their arrays. -/
def pushDecade (decades : List (Nat × List Episode)) (decade : Nat) (episode : Episode) :
    List (Nat × List Episode) :=
  match decades with
  | [] => [(decade, [episode])]
  | (d, es) :: rest =>
    if d = decade then (d, es ++ [episode]) :: rest else (d, es) :: pushDecade rest decade episode

/-- The loop of `displayDecadeGroups` that fills `decades`. -/
def groupDecades (filtered : List Episode) : List (Nat × List Episode) :=
  filtered.foldl
    (fun decades episode =>
      match extractYear episode.broadcast_date with
      | some year => if year ≠ 0 then pushDecade decades (year / 10 * 10) episode else decades
      | none => decades)
    []

/-- The expression `parseInt(a.rank) || 999999`. -/
def decadeRank (e : Episode) : Int :=
  if (parseInt e.rank).truthy then (parseInt e.rank).order else 999999

/-- The comparator of the sort within a decade. -/
def decadeRankCompare (a b : Episode) : JSNum := .int (decadeRank a - decadeRank b)

/-- The groups that `displayDecadeGroups` renders, in the order it renders them: the keys
sorted by number and the episodes of each group sorted by rank. -/
def displayDecadeGroups (st : State) : List (Nat × List Episode) :=
  (jsSort (fun a b => JSNum.int ((a.1 : Int) - b.1)) (groupDecades st.filtered)).map
    fun g => (g.1, jsSort decadeRankCompare g.2)

/-! ## matej-popovski-5773: loading and validation -/

/-- A warning that `validateData` pushes to `state.warnings`, with the index of the record in
the batch and the value that the message quotes. -/
inductive Warning where
  | missingTitle (index : Nat)
  | missingRank (index : Nat)
  | duplicateRank (index : Nat) (rank : JSVal)
  | invalidRank (index : Nat) (rank : JSVal)
  | negativeSeries (index : Nat) (series : JSVal)
  | futureDate (index : Nat) (broadcast_date : Option Str)
  deriving DecidableEq

/-- The message of a warning. -/
def Warning.text : Warning → Str
  | .missingTitle i => "Episode ".toList ++ natToStr (i + 1) ++ ": Missing title".toList
  | .missingRank i => "Episode ".toList ++ natToStr (i + 1) ++ ": Missing rank".toList
  | .duplicateRank i r =>
      "Episode ".toList ++ natToStr (i + 1) ++ ": Duplicate rank ".toList ++ r.toStr
  | .invalidRank i r =>
      "Episode ".toList ++ natToStr (i + 1) ++ ": Invalid rank ".toList ++ r.toStr
  | .negativeSeries i v =>
      "Episode ".toList ++ natToStr (i + 1) ++ ": Negative series number ".toList ++ v.toStr
  | .futureDate i d =>
      "Episode ".toList ++ natToStr (i + 1) ++ ": Future broadcast date ".toList ++
        (optStr d).toStr

/-- The warnings of the tests on the title and on the rank; `seenRanks` holds the ranks met
before. -/
def titleAndRankWarnings (seenRanks : List JSVal) (episode : Episode) (index : Nat) :
    List Warning :=
  (if (orEmpty episode.title).isEmpty || (trim (orEmpty episode.title)).isEmpty then
    [Warning.missingTitle index] else []) ++
  (if !episode.rank.truthy then [Warning.missingRank index] else []) ++
  (if episode.rank.truthy && decide (episode.rank ∈ seenRanks) then
    [Warning.duplicateRank index episode.rank] else []) ++
  (if episode.rank.truthy && episode.rank.le (.num 0) then
    [Warning.invalidRank index episode.rank] else [])

/-- The warning of the test on the series number. -/
def seriesWarnings (episode : Episode) (index : Nat) : List Warning :=
  if episode.series.truthy && episode.series.lt (.num 0) then
    [Warning.negativeSeries index episode.series] else []

/-- The warning of the test `broadcastYear && broadcastYear > currentYear`; `currentYear` is
the value of `new Date().getFullYear()`. -/
def futureDateWarnings (currentYear : Int) (episode : Episode) (index : Nat) : List Warning :=
  match extractYear episode.broadcast_date with
  | some broadcastYear =>
    if broadcastYear ≠ 0 ∧ (broadcastYear : Int) > currentYear then
      [Warning.futureDate index episode.broadcast_date] else []
  | none => []

/-- The warnings that the callback of `validateData` pushes for one episode, in the order of
its statements. -/
def episodeWarnings (currentYear : Int) (seenRanks : List JSVal) (episode : Episode)
    (index : Nat) : List Warning :=
  titleAndRankWarnings seenRanks episode index ++ seriesWarnings episode index ++
    futureDateWarnings currentYear episode index

/-- The loop `episodes.forEach` of `validateData`, from the record of the given index on. -/
def validateLoop (currentYear : Int) : List JSVal → Nat → List Episode → List Warning
  | _, _, [] => []
  | seenRanks, index, episode :: rest =>
    episodeWarnings currentYear seenRanks episode index ++
      validateLoop currentYear (seenRanks ++ [episode.rank]) (index + 1) rest

/-- The function `validateData`, as the list it leaves in `state.warnings`. -/
def validateData (currentYear : Int) (episodes : List Episode) : List Warning :=
  validateLoop currentYear [] 0 episodes

/-- The state at the start of a session. -/
def initialState : State := {}

/-- The function `loadEpisodes` once the data has arrived: the episodes are adopted, copied to
`state.filtered` and sorted through `sortEpisodes('rank')`. -/
def loadEpisodes (host : DateHost) (st : State) (episodes : List Episode) : State :=
  sortEpisodes host { st with episodes := episodes, filtered := episodes } Field.rank

end Matej

namespace Filip

/-! ## filip-gjorgjevski-5349: state, formatting, filtering and sorting -/

/-- The record `state.sort`. -/
structure SortState where
  field : Field := .rank
  ascending : Bool := true
  deriving DecidableEq

/-- The record `state.filters`. -/
structure Filters where
  name : Str := []
  deriving DecidableEq

/-- The global `state`. -/
structure State where
  episodes : List Episode := []
  filtered : List Episode := []
  sort : SortState := {}
  filters : Filters := {}
  focusedRowIndex : Int := -1
  deriving DecidableEq

/-- The function `formatDoctor(d, includeInc)`. -/
def formatDoctor (d : Option Doctor) (includeInc : Bool) : Str :=
  match d with
  | none => "N/A".toList
  | some d =>
    match d.actor with
    | none => "N/A".toList
    | some [] => "N/A".toList
    | some actor =>
      if includeInc then
        actor ++ " (".toList ++
          (match d.incarnation with
            | none => "N/A".toList
            | some [] => "N/A".toList
            | some i => i) ++ ")".toList
      else actor

/-- The function `formatCompanion(c, includeChar)`. -/
def formatCompanion (c : Option Companion) (includeChar : Bool) : Str :=
  match c with
  | none => "N/A".toList
  | some c =>
    match c.actor with
    | none => "N/A".toList
    | some [] => "N/A".toList
    | some actor =>
      if includeChar then
        actor ++ " (".toList ++
          (match c.character with
            | none => "N/A".toList
            | some [] => "N/A".toList
            | some ch => ch) ++ ")".toList
      else actor

/-- The method `split('/')`. -/
def splitSlash : Str → List Str
  | [] => [[]]
  | c :: cs =>
    match splitSlash cs with
    | [] => [[c]]
    | p :: ps => if c = '/' then [] :: p :: ps else (c :: p) :: ps

/-- An element of an array that may be missing, as a value. -/
def partValue (parts : List Str) (i : Nat) : JSVal :=
  match parts.get? i with
  | some p => .str p
  | none => .undefined

/-- The function `normalizeDate`: `none` stands for `null` and `some t` for a `Date` whose time
value is `t`. -/
def normalizeDate (host : DateHost) (dateStr : Option Str) : Option JSNum :=
  match dateStr with
  | none => none
  | some [] => none
  | some s =>
    if (Matej.yearMatch s).isSome then some (host.makeTime (JSVal.str s).toNumber (.int 0) (.int 1))
    else if includes s ['/'] then
      let parts := splitSlash s
      some (host.makeTime (partValue parts 2).toNumber
        ((partValue parts 1).toNumber.sub (.int 1)) (partValue parts 0).toNumber)
    else
      match host.parse s with
      | .nan => none
      | t => some t

/-- The string form of the `cast` array: each entry reads `[object Object]`. -/
def castToString (cast : List CastMember) : Str :=
  ",".toList.intercalate (cast.map fun _ => "[object Object]".toList)

/-- The function `getSortValue`.  The `default` case reads `ep[field]`, which is the `cast`
array for the name `cast`, a scalar for the scalar properties and `undefined` for a name that
is no property of the record. -/
def getSortValue (host : DateHost) (ep : Episode) (field : Field) : JSVal :=
  match field with
  | .doctor => .str (toLowerCase (formatDoctor ep.doctor false))
  | .companion => .str (toLowerCase (formatCompanion ep.companion false))
  | .cast_count => .num (match ep.cast with | some c => c.length | none => 0)
  | .broadcast_date =>
    match normalizeDate host ep.broadcast_date with
    | some t => .num t.order
    | none => .num 0
  | .cast =>
    match ep.cast with
    | some c => .str (toLowerCase (castToString c))
    | none => .str []
  | f => .str (toLowerCase (if (ep.get f).truthy then (ep.get f).toStr else []))

/-- The comparator of `applyFiltersAndSort`. -/
def sortCompare (host : DateHost) (field : Field) (ascending : Bool) (a b : Episode) : JSNum :=
  let valA := getSortValue host a field
  let valB := getSortValue host b field
  let direction : Int := if ascending then 1 else -1
  .int ((if valA.lt valB then -1 else if valB.lt valA then 1 else 0) * direction)

/-- The callback that `applyFiltersAndSort` hands to `filter`. -/
def filterCallback (filterText : Str) (ep : Episode) : Bool :=
  let title := toLowerCase (orEmpty ep.title)
  let doctor := toLowerCase (formatDoctor ep.doctor false)
  let companion := toLowerCase (formatCompanion ep.companion false)
  let writer := toLowerCase (orEmpty ep.writer)
  let director := toLowerCase (orEmpty ep.director)
  includes title filterText || includes doctor filterText || includes companion filterText ||
    includes writer filterText || includes director filterText

/-- The function `applyFiltersAndSort`, up to the display call at its end. -/
def applyFiltersAndSort (host : DateHost) (st : State) : State :=
  let filterText := toLowerCase st.filters.name
  let processedData := st.episodes.filter (filterCallback filterText)
  { st with
    focusedRowIndex := -1
    filtered := jsSort (sortCompare host st.sort.field st.sort.ascending) processedData }

/-! ## filip-gjorgjevski-5349: CSV export -/

/-- The expression `String(value ?? '')`. -/
def stringValue (value : JSVal) : Str :=
  match value with
  | .undefined => []
  | .null => []
  | v => v.toStr

/-- The replacement `replace(/"/g, '""')`. -/
def replaceQuotes : Str → Str
  | [] => []
  | c :: cs => if c = '"' then '"' :: '"' :: replaceQuotes cs else c :: replaceQuotes cs

/-- The test `/[",\n]/.test(s)`. -/
def needsQuoting (s : Str) : Bool := s.any fun c => c == '"' || c == ',' || c == '\n'

/-- The function `escapeCSV`. -/
def escapeCSV (value : JSVal) : Str :=
  if needsQuoting (stringValue value) then '"' :: replaceQuotes (stringValue value) ++ ['"']
  else stringValue value

/-- The method `join(sep)` on an array of strings. -/
def jsJoin (sep : Str) : List Str → Str
  | [] => []
  | [x] => x
  | x :: y :: rest => x ++ sep ++ jsJoin sep (y :: rest)

/-- The function `getYear`; `fullYear` is the method `getFullYear` of the host, on the time
value of a date.  The result is handed to `escapeCSV` only, which reads its string form, so
that the year `NaN` of an invalid date is kept as the text `NaN`. -/
def getYear (host : DateHost) (fullYear : JSNum → JSNum) (dateStr : Option Str) : JSVal :=
  match normalizeDate host dateStr with
  | some t =>
    match fullYear t with
    | .int y => .num y
    | .nan => .str "NaN".toList
  | none => .str "N/A".toList

/-- The array `headers` of `exportToCSV`. -/
def headers : List JSVal :=
  ["Rank".toList, "Title".toList, "Series".toList, "Era".toList, "Year".toList,
   "Director".toList, "Writer".toList, "Doctor".toList, "Companion".toList,
   "Cast Count".toList].map JSVal.str

/-- The row that `exportToCSV` builds for an episode. -/
def dataRow (host : DateHost) (fullYear : JSNum → JSNum) (ep : Episode) : List JSVal :=
  [ep.rank, optStr ep.title, ep.series, optStr ep.era,
   getYear host fullYear ep.broadcast_date, optStr ep.director, optStr ep.writer,
   .str (formatDoctor ep.doctor true), .str (formatCompanion ep.companion true),
   .num (match ep.cast with | some c => c.length | none => 0)]

/-- The line of a row: `row.map(escapeCSV).join(',')`. -/
def csvRow (row : List JSVal) : Str := jsJoin [','] (row.map escapeCSV)

/-- The text `csvContent` that `exportToCSV` hands to the download. -/
def exportToCSV (host : DateHost) (fullYear : JSNum → JSNum) (st : State) : Str :=
  jsJoin ['\n'] (csvRow headers :: st.filtered.map fun ep => csvRow (dataRow host fullYear ep))

/-! ## filip-gjorgjevski-5349: validation -/

/-- A warning of `validateData`, with the index and the title of the record it is about. -/
inductive Warning where
  | missingField (index : Nat) (title : Option Str) (field : Field)
  | futureDate (index : Nat) (title : Option Str)
  | invalidRank (index : Nat) (title : Option Str)
  | duplicateRank (index : Nat) (title : Option Str) (rank : Int)
  | negativeSeries (index : Nat) (title : Option Str)
  deriving DecidableEq

/-- The text `id` by which a warning names its record. -/
def episodeId (index : Nat) (title : Option Str) : Str :=
  "Episode ".toList ++ ['"'] ++
    (match title with
      | none => "(Untitled at index ".toList ++ natToStr index
      | some [] => "(Untitled at index ".toList ++ natToStr index
      | some t => t) ++ [')', '"']

/-- The message of a warning. -/
def Warning.text : Warning → Str
  | .missingField i t f =>
      "Validation Error: ".toList ++ episodeId i t ++ " is missing required field ".toList ++
        [Char.ofNat 39] ++ f.name ++ [Char.ofNat 39, '.']
  | .futureDate i t =>
      "Validation Error: ".toList ++ episodeId i t ++ " has a future broadcast date.".toList
  | .invalidRank i t =>
      "Validation Error: ".toList ++ episodeId i t ++ " has an invalid rank.".toList
  | .duplicateRank i t r =>
      "Validation Error: Duplicate rank ".toList ++ [Char.ofNat 39] ++ intToStr r ++
        [Char.ofNat 39] ++ " found on ".toList ++ episodeId i t ++ ['.']
  | .negativeSeries i t =>
      "Validation Error: ".toList ++ episodeId i t ++ " has a negative series number.".toList

/-- The array `requiredFields`. -/
def requiredFields : List Field := [.rank, .title, .era, .broadcast_date]

/-- The test `episode[field] == null || episode[field] === ''`. -/
def isMissing (v : JSVal) : Bool :=
  match v with
  | .undefined => true
  | .null => true
  | .str [] => true
  | _ => false

/-- The warnings of the loop over `requiredFields`. -/
def missingFieldWarnings (episode : Episode) (index : Nat) : List Warning :=
  (requiredFields.filter fun field => isMissing (episode.get field)).map
    fun field => Warning.missingField index episode.title field

/-- The warning of the test `date && date > now`; `now` is the time value of `new Date()`. -/
def futureDateWarnings (host : DateHost) (now : Int) (episode : Episode) (index : Nat) :
    List Warning :=
  match normalizeDate host episode.broadcast_date with
  | some date => if (JSNum.int now).lt date then [Warning.futureDate index episode.title] else []
  | none => []

/-- The warning of the tests on the rank; `seenRanks` holds the ranks met before. -/
def rankWarnings (seenRanks : List Int) (episode : Episode) (index : Nat) : List Warning :=
  match episode.rank with
  | .num rank =>
    if rank ∈ seenRanks then [Warning.duplicateRank index episode.title rank] else []
  | _ => [Warning.invalidRank index episode.title]

/-- The warning of the test on the series number. -/
def seriesWarnings (episode : Episode) (index : Nat) : List Warning :=
  match episode.series with
  | .num series => if series < 0 then [Warning.negativeSeries index episode.title] else []
  | _ => []

/-- The warnings that the callback of `validateData` pushes for one episode, in the order of
its statements. -/
def episodeWarnings (host : DateHost) (now : Int) (seenRanks : List Int) (episode : Episode)
    (index : Nat) : List Warning :=
  missingFieldWarnings episode index ++ futureDateWarnings host now episode index ++
    rankWarnings seenRanks episode index ++ seriesWarnings episode index

/-- The set `seenRanks` after the callback has run on an episode. -/
def seenAfter (seenRanks : List Int) (episode : Episode) : List Int :=
  match episode.rank with
  | .num rank => if rank ∈ seenRanks then seenRanks else seenRanks ++ [rank]
  | _ => seenRanks

/-- The loop `episodes.forEach` of `validateData`, from the record of the given index on. -/
def validateLoop (host : DateHost) (now : Int) : List Int → Nat → List Episode → List Warning
  | _, _, [] => []
  | seenRanks, index, episode :: rest =>
    episodeWarnings host now seenRanks episode index ++
      validateLoop host now (seenAfter seenRanks episode) (index + 1) rest

/-- The function `validateData`. -/
def validateData (host : DateHost) (now : Int) (episodes : List Episode) : List Warning :=
  validateLoop host now [] 0 episodes

end Filip

open Matej

/-! ## Vocabulary of the specification -/

/-- The filter rule in the words of the specification: an episode passes when it satisfies all
four predicates, a predicate whose filter value is empty being satisfied. -/
def passesAllFilters (f : Filters) (e : Episode) : Prop :=
  (f.name = [] ∨ includes (toLowerCase (orEmpty e.title)) f.name = true) ∧
  (f.era = [] ∨ e.era = some f.era) ∧
  (f.doctor = [] ∨ includes (doctorName e) f.doctor = true) ∧
  (f.companion = [] ∨ includes (companionName e) f.companion = true)

instance (f : Filters) (e : Episode) : Decidable (passesAllFilters f e) := by
  unfold passesAllFilters; infer_instance

/-- The rank of an episode as a number, a missing rank counting as `0`. -/
def rankNumber (e : Episode) : Int :=
  match e.rank with
  | .num n => n
  | _ => 0

/-- The rank of the episode is an integer or is missing. -/
def rankIntegerOrMissing (e : Episode) : Prop :=
  match e.rank with
  | .str _ => False
  | _ => True

instance (e : Episode) : Decidable (rankIntegerOrMissing e) := by
  unfold rankIntegerOrMissing; split <;> infer_instance

/-- The order of the relevance sort: the higher score first and, between equal scores, the
lower rank first. -/
def relevanceOrder (term : Str) (a b : Episode) : Prop :=
  calculateRelevance b term < calculateRelevance a term ∨
    (calculateRelevance a term = calculateRelevance b term ∧ rankNumber a ≤ rankNumber b)

instance (term : Str) : DecidableRel (relevanceOrder term) := fun a b => by
  unfold relevanceOrder; infer_instance

/-- The decade an episode is filed under: that of its extracted year, when that year is not
zero. -/
def decadeOf (e : Episode) : Option Nat :=
  match extractYear e.broadcast_date with
  | some y => if y ≠ 0 then some (y / 10 * 10) else none
  | none => none

/-- What the loop of `displayDecadeGroups` has built after the episodes `l`: every group holds,
in their order, the episodes of its decade, no key occurs twice, and every decade met has its
group. -/
def DecadesInv (D : List (Nat × List Episode)) (l : List Episode) : Prop :=
  (∀ g ∈ D, g.2 = l.filter (fun e => decide (decadeOf e = some g.1))) ∧
  (D.map Prod.fst).Nodup ∧
  (∀ e ∈ l, ∀ d, decadeOf e = some d → d ∈ D.map Prod.fst)

/-- The order of the sort key within a decade. -/
def decadeRankOrder (a b : Episode) : Prop := decadeRank a ≤ decadeRank b

instance : DecidableRel decadeRankOrder := fun a b => by
  unfold decadeRankOrder; infer_instance

/-- One or two digits. -/
def digits12 (ds : Str) : Prop :=
  (∃ a, ds = [a] ∧ isDigit a = true) ∨ (∃ a b, ds = [a, b] ∧ isDigit a = true ∧ isDigit b = true)

/-- Two digits. -/
def digits2 (ds : Str) : Prop := ∃ p q, ds = [p, q] ∧ isDigit p = true ∧ isDigit q = true

/-- Four digits. -/
def digits4 (ds : Str) : Prop :=
  ∃ a b c d, ds = [a, b, c, d] ∧ isDigit a = true ∧ isDigit b = true ∧ isDigit c = true ∧
    isDigit d = true

/-- White space, at least one character of it. -/
def spaces (ws : Str) : Prop := ws ≠ [] ∧ ∀ c ∈ ws, isSpace c = true

/-- The format ISO `YYYY-MM-DD`. -/
def isoDate (s : Str) : Prop :=
  ∃ y m d, digits4 y ∧ digits2 m ∧ digits2 d ∧ s = y ++ '-' :: m ++ '-' :: d

/-- The format UK `D/M/YYYY`, day and month of one or two digits. -/
def ukDate (s : Str) : Prop :=
  ∃ day month year, digits12 day ∧ digits12 month ∧ digits4 year ∧
    s = day ++ '/' :: month ++ '/' :: year

/-- The long form `Month D, YYYY`: the name of a month in any case, white space, a day of one
or two digits, a comma, white space and the year. -/
def longDate (s : Str) : Prop :=
  ∃ name ws1 day ws2 year m, m ∈ monthNames ∧ toLowerCase name = toLowerCase m ∧ spaces ws1 ∧
    digits12 day ∧ spaces ws2 ∧ digits4 year ∧ s = name ++ (ws1 ++ (day ++ ',' :: (ws2 ++ year)))

/-- The four recognised formats of a date. -/
def recognisedDate (s : Str) : Prop := isoDate s ∨ ukDate s ∨ longDate s ∨ digits4 s

/-- The reading of a line of CSV in the words of the specification: the line is split on the
commas that lie outside double-quoted sections, the enclosing quotes are stripped and a doubled
quote within them is one quote.  `inQuotes` tells whether the scan is within a quoted section
and `cell` is the text of the cell read so far. -/
def splitCSVAux : Bool → Str → Str → List Str
  | _, cell, [] => [cell]
  | true, cell, '"' :: '"' :: rest => splitCSVAux true (cell ++ ['"']) rest
  | true, cell, '"' :: rest => splitCSVAux false cell rest
  | true, cell, c :: rest => splitCSVAux true (cell ++ [c]) rest
  | false, cell, c :: rest =>
    if c = ',' then cell :: splitCSVAux false [] rest
    else if c = '"' then splitCSVAux true cell rest
    else splitCSVAux false (cell ++ [c]) rest

/-- The cells of a line of CSV. -/
def splitCSV (line : Str) : List Str := splitCSVAux false [] line

/-- The set `seenRanks` of filip's `validateData` after the records `l`. -/
def seenRanksOf (l : List Episode) : List Int := l.foldl Filip.seenAfter []

/-- The warnings that filip's `validateData` pushes for the record of index `i`. -/
def warningsAt (host : DateHost) (now : Int) (eps : List Episode) (i : Nat) :
    List Filip.Warning :=
  match eps[i]? with
  | some e => Filip.episodeWarnings host now (seenRanksOf (eps.take i)) e i
  | none => []

/-- The index of the record that a duplicate-rank warning is about. -/
def duplicateAt : Filip.Warning → Option Nat
  | .duplicateRank i _ _ => some i
  | _ => none

/-- Whether a warning says that the record of index `i` lacks the field `f`. -/
def isMissingFieldAt (i : Nat) (f : Field) : Filip.Warning → Bool
  | .missingField j _ g => j == i && g == f
  | _ => false

/-- Whether a warning says that the record of index `i` has an invalid rank. -/
def isInvalidRankAt (i : Nat) : Filip.Warning → Bool
  | .invalidRank j _ => j == i
  | _ => false

/-- Whether a rank is a number that one of the earlier records carries. -/
def rankRepeats (earlier : List Episode) : JSVal → Bool
  | .num r => earlier.any fun x => x.rank == .num r
  | _ => false

/-- Whether the rank of the record of index `i` is a number that an earlier record of the
batch carries. -/
def repeatsEarlierRank (eps : List Episode) (i : Nat) : Bool :=
  match eps[i]? with
  | some e => rankRepeats (eps.take i) e.rank
  | none => false

/-- The comparison `aVal < bVal` that the regular comparator of `sortEpisodes` makes between
the keys of two episodes. -/
def fieldLt (host : DateHost) (field : Field) (a b : Episode) : Bool :=
  if field = .rank ∨ field = .series ∨ field = .cast then
    decide (numberOrZero (getFieldValue a field) < numberOrZero (getFieldValue b field))
  else if field = .broadcast_date then
    (parseDate host a.broadcast_date).lt (parseDate host b.broadcast_date)
  else
    strLt (toLowerCase (getFieldValue a field).toStr) (toLowerCase (getFieldValue b field).toStr)

/-- The order in which the regular comparator of `sortEpisodes` leaves two episodes: in
ascending direction the key of the second is not below the key of the first, in descending
direction the other way round. -/
def fieldOrder (host : DateHost) (field : Field) (ascending : Bool) (a b : Episode) : Prop :=
  if ascending then fieldLt host field b a = false else fieldLt host field a b = false

instance (host : DateHost) (field : Field) (ascending : Bool) :
    DecidableRel (fieldOrder host field ascending) := fun a b => by
  unfold fieldOrder; infer_instance

/-- The host builds a date for 1 January of every year of four digits. -/
def validDates (host : DateHost) : Prop :=
  ∀ y : Nat, y ≤ 9999 → ∃ t : Int, host.makeTime (.int y) (.int 0) (.int 1) = .int t

/-- The time value by which `sortEpisodes` files the date of an episode. -/
def dateTime (host : DateHost) (e : Episode) : Int := (parseDate host e.broadcast_date).order

/-- The date of the episode is not parsed: `extractYear` yields no year or the year 0. -/
def unparsedDate (e : Episode) : Prop :=
  extractYear e.broadcast_date = none ∨ extractYear e.broadcast_date = some 0

instance (e : Episode) : Decidable (unparsedDate e) := by
  unfold unparsedDate; infer_instance

/-- The year of a date lies before 1970 as `new Date(year, 0, 1)` reads it: a year from 1 to 99
stands for the year 1900 + year. -/
def yearBeforeEpoch (y : Nat) : Prop := (1 ≤ y ∧ y ≤ 69) ∨ (100 ≤ y ∧ y ≤ 1969)

instance (y : Nat) : Decidable (yearBeforeEpoch y) := by
  unfold yearBeforeEpoch; infer_instance

/-- The year of a date lies after 1970 as `new Date(year, 0, 1)` reads it: a year from 1 to 99
stands for the year 1900 + year. -/
def yearAfterEpoch (y : Nat) : Prop := (71 ≤ y ∧ y ≤ 99) ∨ 1971 ≤ y

instance (y : Nat) : Decidable (yearAfterEpoch y) := by
  unfold yearAfterEpoch; infer_instance

/-- The search rule of filip's filter in the words of the specification: the lower-cased
filter text is a substring of the lower-cased title, doctor actor name, companion actor name,
writer or director, an absent field counting as the empty string. -/
def matchesAnyField (filterText : Str) (ep : Episode) : Bool :=
  includes (toLowerCase (orEmpty ep.title)) (toLowerCase filterText) ||
  includes (toLowerCase (doctorName ep)) (toLowerCase filterText) ||
  includes (toLowerCase (companionName ep)) (toLowerCase filterText) ||
  includes (toLowerCase (orEmpty ep.writer)) (toLowerCase filterText) ||
  includes (toLowerCase (orEmpty ep.director)) (toLowerCase filterText)

/-! ## Sample data -/

/-- A host whose `Date` yields no time value; the examples that use it do not read dates. -/
def noDates : DateHost := ⟨fun _ _ _ => .nan, fun _ => .nan⟩

/-- The day number of 1 January of a year, counted from 1 January 1970 (`DayFromYear`). -/
def dayFromYear (y : Int) : Int :=
  365 * (y - 1970) + (y - 1969) / 4 - (y - 1901) / 100 + (y - 1601) / 400

/-- Whether a year is a leap year. -/
def inLeapYear (y : Int) : Bool := (y % 4 == 0 && y % 100 != 0) || y % 400 == 0

/-- The days of a year that lie before the month of the given index `0`..`11`. -/
def daysBeforeMonth (leap : Bool) (month : Int) : Int :=
  let l : Int := if leap then 1 else 0
  if month = 0 then 0 else if month = 1 then 31 else if month = 2 then 59 + l
  else if month = 3 then 90 + l else if month = 4 then 120 + l else if month = 5 then 151 + l
  else if month = 6 then 181 + l else if month = 7 then 212 + l else if month = 8 then 243 + l
  else if month = 9 then 273 + l else if month = 10 then 304 + l else 334 + l

/-- The day number of a date given by year, month index and day of the month (`MakeDay`); a
month index outside `0`..`11` carries over into the year. -/
def makeDay (year month date : Int) : Int :=
  dayFromYear (year + month / 12) + daysBeforeMonth (inLeapYear (year + month / 12)) (month % 12)
    + date - 1

/-- The range of time values (`TimeClip`). -/
def timeClip (t : Int) : JSNum :=
  if -8640000000000000 ≤ t ∧ t ≤ 8640000000000000 then .int t else .nan

/-- The time value of `new Date(y, m, d)` in the time zone UTC: a year from 0 to 99 stands for
the year 1900 + y, and the time is midnight of the day, in milliseconds. -/
def utcMakeTime : JSNum → JSNum → JSNum → JSNum
  | .int y, .int m, .int d =>
    timeClip (makeDay (if 0 ≤ y ∧ y ≤ 99 then 1900 + y else y) m d * 86400000)
  | _, _, _ => .nan

/-- A host in the time zone UTC; how it reads a date string is left as a parameter. -/
def utcHost (parse : Str → JSNum) : DateHost := ⟨utcMakeTime, parse⟩

/-- The host keeps a local time: its time value of 1 January of a year of four digits lies less
than a day from the one of the time zone UTC. -/
def localDates (host : DateHost) : Prop :=
  ∀ y : Nat, y ≤ 9999 → ∃ t offset : Int,
    utcMakeTime (.int y) (.int 0) (.int 1) = .int t ∧
    host.makeTime (.int y) (.int 0) (.int 1) = .int (t - offset) ∧
    -86400000 < offset ∧ offset < 86400000

/-- An episode that has neither a doctor nor a companion. -/
def episodeWithoutDoctor : Episode :=
  { rank := .num 1, title := some "Rose".toList, writer := some "Russell T Davies".toList,
    director := some "Keith Boak".toList }

/-- Four episodes whose titles contain `rose`. -/
def roseEpisodes : List Episode :=
  [{ rank := .num 7, title := some "The Rose Garden".toList },
   { rank := .num 9, title := some "Rose Tyler Returns".toList },
   { title := some "Rose".toList },
   { rank := .num 3, title := some "Primrose".toList }]

/-- Three episodes whose titles start with `rose`; the rank of the second is a text. -/
def textRankEpisodes : List Episode :=
  [{ rank := .num 3, title := some "rose a".toList },
   { rank := .str "x".toList, title := some "rose b".toList },
   { rank := .num 1, title := some "rose c".toList }]

/-- The two episodes of the grouping example. -/
def episodesOf2005 : List Episode :=
  [{ rank := .num 1, title := some "Rose".toList, broadcast_date := some "2005-03-26".toList },
   { rank := .num 2, title := some "The End of the World".toList,
     broadcast_date := some "01/04/2005".toList }]

/-- Episodes of one decade with ranks that are missing, numeric and unparseable. -/
def mixedRanks : List Episode :=
  [{ broadcast_date := some "2005".toList },
   { rank := .num 5, broadcast_date := some "2005".toList },
   { rank := .str "n/a".toList, broadcast_date := some "2006".toList },
   { rank := .str "2nd".toList, broadcast_date := some "2007".toList }]

/-- The episodes `mixedRanks` in the order of their group. -/
def mixedRanksByRank : List Episode :=
  [{ rank := .str "2nd".toList, broadcast_date := some "2007".toList },
   { rank := .num 5, broadcast_date := some "2005".toList },
   { broadcast_date := some "2005".toList },
   { rank := .str "n/a".toList, broadcast_date := some "2006".toList }]

/-! ## Sorting -/

theorem jsSort_perm {α : Type} (cmp : α → α → JSNum) (l : List α) : (jsSort cmp l).Perm l :=
  List.perm_insertionSort _ l

theorem orderedInsert_congr {α : Type} (r s : α → α → Prop) [DecidableRel r] [DecidableRel s]
    (a : α) (l : List α) (h : ∀ b ∈ l, (r a b ↔ s a b)) :
    List.orderedInsert r a l = List.orderedInsert s a l := by
  induction l with
  | nil => rfl
  | cons b l ih =>
    have hb := h b (List.mem_cons_self b l)
    have ih2 := ih (fun c hc => h c (List.mem_cons_of_mem b hc))
    by_cases hr : r a b
    · simp [List.orderedInsert, hr, hb.mp hr]
    · have hs : ¬ s a b := fun x => hr (hb.mpr x)
      simp [List.orderedInsert, hr, hs, ih2]

theorem insertionSort_congr {α : Type} (r s : α → α → Prop) [DecidableRel r] [DecidableRel s]
    (l : List α) (h : ∀ a ∈ l, ∀ b ∈ l, (r a b ↔ s a b)) :
    List.insertionSort r l = List.insertionSort s l := by
  induction l with
  | nil => rfl
  | cons a l ih =>
    have ih2 := ih (fun x hx y hy => h x (List.mem_cons_of_mem a hx) y (List.mem_cons_of_mem a hy))
    simp only [List.insertionSort]
    rw [ih2]
    apply orderedInsert_congr
    intro b hb
    have hb2 : b ∈ l := (List.mem_insertionSort s).mp hb
    exact h a (List.mem_cons_self a l) b (List.mem_cons_of_mem a hb2)

/-- A comparator that agrees on the list with a total and transitive order sorts by it. -/
theorem jsSort_pairwise {α : Type} (cmp : α → α → JSNum) (s : α → α → Prop) [DecidableRel s]
    (htotal : ∀ a b, s a b ∨ s b a) (htrans : ∀ a b c, s a b → s b c → s a c) (l : List α)
    (h : ∀ a ∈ l, ∀ b ∈ l, ((cmp a b).order ≤ 0 ↔ s a b)) : (jsSort cmp l).Pairwise s := by
  haveI : IsTotal α s := ⟨htotal⟩
  haveI : IsTrans α s := ⟨htrans⟩
  unfold jsSort
  rw [insertionSort_congr _ s l h]
  exact List.sorted_insertionSort s l

theorem orderedInsert_chain {α : Type} (r : α → α → Prop) [DecidableRel r]
    (htotal : ∀ a b, r a b ∨ r b a) (a : α) (l : List α) (h : l.Chain' r) :
    (l.orderedInsert r a).Chain' r := by
  induction l with
  | nil => simp [List.orderedInsert]
  | cons b l ih =>
    simp only [List.orderedInsert]
    split_ifs with hab
    · exact List.Chain'.cons hab h
    · have hba : r b a := (htotal a b).resolve_left hab
      have ih2 := ih h.tail
      rw [List.chain'_cons']
      refine ⟨?_, ih2⟩
      intro y hy
      cases l with
      | nil =>
        simp [List.orderedInsert] at hy
        subst hy
        exact hba
      | cons c l2 =>
        simp only [List.orderedInsert] at hy
        split_ifs at hy with hac
        · simp at hy
          subst hy
          exact hba
        · simp at hy
          subst hy
          exact (List.chain'_cons.mp h).1

theorem insertionSort_chain {α : Type} (r : α → α → Prop) [DecidableRel r]
    (htotal : ∀ a b, r a b ∨ r b a) (l : List α) : (l.insertionSort r).Chain' r := by
  induction l with
  | nil => simp
  | cons a l ih => exact orderedInsert_chain r htotal a _ ih

theorem insertionSort_of_chain {α : Type} (r : α → α → Prop) [DecidableRel r] (l : List α)
    (h : l.Chain' r) : l.insertionSort r = l := by
  induction l with
  | nil => rfl
  | cons a l ih =>
    simp only [List.insertionSort]
    rw [ih h.tail]
    cases l with
    | nil => rfl
    | cons b l2 =>
      have hab : r a b := (List.chain'_cons.mp h).1
      simp [List.orderedInsert, hab]

/-- Sorting a second time with the same comparator changes nothing, whenever the comparator
puts every two elements in at least one order. -/
theorem jsSort_idem {α : Type} (cmp : α → α → JSNum)
    (htotal : ∀ a b, (cmp a b).order ≤ 0 ∨ (cmp b a).order ≤ 0) (l : List α) :
    jsSort cmp (jsSort cmp l) = jsSort cmp l := by
  unfold jsSort
  exact insertionSort_of_chain _ _ (insertionSort_chain _ htotal l)

theorem sortEpisodes_perm (host : DateHost) (st : State) (field : Field) :
    (sortEpisodes host st field).filtered.Perm st.filtered := by
  unfold sortEpisodes applySortWithRelevance
  simp only
  split <;> exact jsSort_perm _ _

theorem filterCallback_iff (f : Filters) (e : Episode) :
    filterCallback f e = true ↔ passesAllFilters f e := by
  unfold filterCallback passesAllFilters
  cases hn : f.name <;> cases he : f.era <;> cases hd : f.doctor <;> cases hc : f.companion <;>
    simp

theorem relevanceOrder_total (term : Str) (a b : Episode) :
    relevanceOrder term a b ∨ relevanceOrder term b a := by
  unfold relevanceOrder; omega

theorem relevanceOrder_trans (term : Str) (a b c : Episode) (h1 : relevanceOrder term a b)
    (h2 : relevanceOrder term b c) : relevanceOrder term a c := by
  unfold relevanceOrder at *; omega

theorem relevanceCompare_iff (term : Str) (a b : Episode) (ha : rankIntegerOrMissing a)
    (hb : rankIntegerOrMissing b) :
    (relevanceCompare term a b).order ≤ 0 ↔ relevanceOrder term a b := by
  unfold relevanceCompare relevanceOrder rankNumber rankOrZero
  unfold rankIntegerOrMissing at ha hb
  cases hra : a.rank <;> cases hrb : b.rank <;> simp [hra, hrb] at ha hb ⊢ <;>
    split_ifs <;>
    simp_all [JSVal.truthy, JSVal.toNumber, JSNum.sub, JSNum.order] <;> omega

/-- The comparator of the relevance sort puts every two episodes in at least one order,
whatever their ranks are. -/
theorem relevanceCompare_total (term : Str) (a b : Episode) :
    (relevanceCompare term a b).order ≤ 0 ∨ (relevanceCompare term b a).order ≤ 0 := by
  unfold relevanceCompare
  simp only
  by_cases h : calculateRelevance a term = calculateRelevance b term
  · simp only [h, ne_eq, not_true_eq_false, if_false]
    cases (rankOrZero a).toNumber <;> cases (rankOrZero b).toNumber <;>
      simp [JSNum.sub, JSNum.order]
    omega
  · have h2 : ¬ calculateRelevance b term = calculateRelevance a term := fun x => h x.symm
    simp only [h, h2, ne_eq, not_false_eq_true, if_true, JSNum.order]
    omega

/-! ## Characters -/

theorem char_le_iff (a b : Char) : a ≤ b ↔ a.toNat ≤ b.toNat := Iff.rfl

theorem toNat_ofNat_small (n : Nat) (h : n < 0xD800) : (Char.ofNat n).toNat = n := by
  unfold Char.ofNat
  rw [dif_pos (Or.inl h)]
  rfl

theorem isDigit_iff (c : Char) : isDigit c = true ↔ 48 ≤ c.toNat ∧ c.toNat ≤ 57 := by
  simp [isDigit, char_le_iff]

theorem isWordChar_iff (c : Char) : isWordChar c = true ↔
    (97 ≤ c.toNat ∧ c.toNat ≤ 122) ∨ (65 ≤ c.toNat ∧ c.toNat ≤ 90) ∨
      (48 ≤ c.toNat ∧ c.toNat ≤ 57) ∨ c.toNat = 95 := by
  have h : c = '_' ↔ c.toNat = 95 := by
    constructor
    · intro h; subst h; rfl
    · intro h
      have := congrArg Char.ofNat h
      simpa using this
  simp [isWordChar, char_le_iff, h, or_assoc]

theorem toLower_toNat (c : Char) :
    c.toLower.toNat = if 65 ≤ c.toNat ∧ c.toNat ≤ 90 then c.toNat + 32 else c.toNat := by
  unfold Char.toLower
  simp only [ge_iff_le]
  split
  · rename_i h
    exact toNat_ofNat_small _ (by omega)
  · rfl

theorem isSpace_iff (c : Char) : isSpace c = true ↔
    (c.toNat = 0x09 ∨ c.toNat = 0x0A ∨ c.toNat = 0x0B ∨ c.toNat = 0x0C ∨ c.toNat = 0x0D ∨
      c.toNat = 0x20 ∨ c.toNat = 0xA0 ∨ c.toNat = 0x1680 ∨ (0x2000 ≤ c.toNat ∧ c.toNat ≤ 0x200A) ∨
      c.toNat = 0x2028 ∨ c.toNat = 0x2029 ∨ c.toNat = 0x202F ∨ c.toNat = 0x205F ∨
      c.toNat = 0x3000 ∨ c.toNat = 0xFEFF) := by
  simp [isSpace, or_assoc]

theorem isDigit_toLower (c : Char) : isDigit c.toLower = isDigit c := by
  rw [Bool.eq_iff_iff, isDigit_iff, isDigit_iff, toLower_toNat]
  split <;> omega

theorem isWordChar_toLower (c : Char) : isWordChar c.toLower = isWordChar c := by
  rw [Bool.eq_iff_iff, isWordChar_iff, isWordChar_iff, toLower_toNat]
  split <;> omega

theorem isWordChar_of_isDigit {c : Char} (h : isDigit c = true) : isWordChar c = true := by
  rw [isDigit_iff] at h; rw [isWordChar_iff]; omega

theorem not_isDigit_of_isSpace {c : Char} (h : isSpace c = true) : isDigit c = false := by
  rw [isSpace_iff] at h
  rw [Bool.eq_false_iff]
  intro hd
  rw [isDigit_iff] at hd
  omega

theorem not_isWordChar_of_isSpace {c : Char} (h : isSpace c = true) : isWordChar c = false := by
  rw [isSpace_iff] at h
  rw [Bool.eq_false_iff]
  intro hd
  rw [isWordChar_iff] at hd
  omega

/-! ## Date patterns -/

theorem isRadixDigit_ten (c : Char) : isRadixDigit 10 c = isDigit c := by
  rw [Bool.eq_iff_iff, isDigit_iff]
  unfold isRadixDigit digitVal
  simp only [Bool.and_eq_true, decide_eq_true_eq, char_le_iff]
  have h0 : '0'.toNat = 48 := rfl
  have h9 : '9'.toNat = 57 := rfl
  have ha : 'a'.toNat = 97 := rfl
  have hz : 'z'.toNat = 122 := rfl
  have hA : 'A'.toNat = 65 := rfl
  have hZ : 'Z'.toNat = 90 := rfl
  rw [h0, h9, ha, hz, hA, hZ]
  split_ifs <;> simp <;> omega

/-- On a capture of four digits `parseInt` yields the number they spell. -/
theorem parseIntStr_digits4 {y : Str} (hy : digits4 y) :
    parseIntStr y = .int (digitsValue 10 y) := by
  obtain ⟨a, b, c, d, rfl, ha, hb, hc, hd⟩ := hy
  have hsp : isSpace a = false := by
    cases h : isSpace a
    · rfl
    · have := not_isDigit_of_isSpace h
      rw [ha] at this
      cases this
  have ht : trimStart [a, b, c, d] = [a, b, c, d] := by
    simp [trimStart, hsp]
  have hs : parseSign [a, b, c, d] = (false, [a, b, c, d]) := by
    unfold parseSign
    split
    · rename_i heq; cases heq; exact absurd ha (by decide)
    · rename_i heq; cases heq; exact absurd ha (by decide)
    · rfl
  have hr : parseRadix [a, b, c, d] = (10, [a, b, c, d]) := by
    unfold parseRadix
    split
    · rename_i heq; cases heq; exact absurd hb (by decide)
    · rename_i heq; cases heq; exact absurd hb (by decide)
    · rfl
  unfold parseIntStr
  simp [ht, hs, hr, isRadixDigit_ten, ha, hb, hc, hd]

theorem fourDigitsEnd_some {r y : Str} (h : fourDigitsEnd r = some y) : r = y ∧ digits4 y := by
  unfold fourDigitsEnd at h
  split at h
  · rename_i a b c d
    split at h
    · rename_i hd
      simp only [Bool.and_eq_true] at hd
      cases h
      exact ⟨rfl, a, b, c, d, rfl, hd.1.1.1, hd.1.1.2, hd.1.2, hd.2⟩
    · cases h
  · cases h

theorem fourDigitsEnd_of_digits4 {y : Str} (h : digits4 y) : fourDigitsEnd y = some y := by
  obtain ⟨a, b, c, d, rfl, ha, hb, hc, hd⟩ := h
  simp [fourDigitsEnd, ha, hb, hc, hd]

theorem oneOrTwoDigits_some {s ds r : Str} (h : oneOrTwoDigits s = some (ds, r)) :
    s = ds ++ r ∧ digits12 ds := by
  unfold oneOrTwoDigits at h
  split at h
  · rename_i a b t
    split at h
    · rename_i ha
      split at h
      · rename_i hb
        cases h
        exact ⟨rfl, Or.inr ⟨a, b, rfl, ha, hb⟩⟩
      · cases h
        exact ⟨rfl, Or.inl ⟨a, rfl, ha⟩⟩
    · cases h
  · rename_i a
    split at h
    · rename_i ha
      cases h
      exact ⟨rfl, Or.inl ⟨a, rfl, ha⟩⟩
    · cases h
  · cases h

/-- One or two digits followed by a character that is no digit are read off greedily. -/
theorem oneOrTwoDigits_append {ds : Str} (h : digits12 ds) (x : Char) (r : Str)
    (hx : isDigit x = false) : oneOrTwoDigits (ds ++ x :: r) = some (ds, x :: r) := by
  rcases h with ⟨a, rfl, ha⟩ | ⟨a, b, rfl, ha, hb⟩
  · simp [oneOrTwoDigits, ha, hx]
  · simp [oneOrTwoDigits, ha, hb]

theorem padStart2_digits12 {ds : Str} (h : digits12 ds) :
    ∃ p q, padStart2 '0' ds = [p, q] ∧ isDigit p = true ∧ isDigit q = true := by
  rcases h with ⟨a, rfl, ha⟩ | ⟨a, b, rfl, ha, hb⟩
  · exact ⟨'0', a, rfl, by decide, ha⟩
  · exact ⟨a, b, rfl, ha, hb⟩

theorem isoMatch_build {y m d : Str} (hy : digits4 y)
    (hm : ∃ p q, m = [p, q] ∧ isDigit p = true ∧ isDigit q = true)
    (hd : ∃ p q, d = [p, q] ∧ isDigit p = true ∧ isDigit q = true) :
    isoMatch (y ++ '-' :: m ++ '-' :: d) = some (y, m, d) := by
  obtain ⟨a, b, c, e, rfl, ha, hb, hc, he⟩ := hy
  obtain ⟨m1, m2, rfl, hm1, hm2⟩ := hm
  obtain ⟨d1, d2, rfl, hd1, hd2⟩ := hd
  simp [isoMatch, ha, hb, hc, he, hm1, hm2, hd1, hd2]

theorem extractYear_build {y m d : Str} (hy : digits4 y)
    (hm : ∃ p q, m = [p, q] ∧ isDigit p = true ∧ isDigit q = true)
    (hd : ∃ p q, d = [p, q] ∧ isDigit p = true ∧ isDigit q = true) :
    extractYear (some (y ++ '-' :: m ++ '-' :: d)) = some (digitsValue 10 y) := by
  have h := isoMatch_build hy hm hd
  obtain ⟨a, b, c, e, rfl, -⟩ := hy
  simp only [List.cons_append, List.nil_append] at h ⊢
  simp [extractYear, h]

theorem ukMatch_some {s day month year : Str} (h : ukMatch s = some (day, month, year)) :
    s = day ++ '/' :: month ++ '/' :: year ∧ digits12 day ∧ digits12 month ∧ digits4 year := by
  unfold ukMatch at h
  split at h
  · rename_i d r hd
    split at h
    · rename_i m r2 hm
      split at h
      · rename_i y hy
        cases h
        obtain ⟨h1, h2⟩ := oneOrTwoDigits_some hd
        obtain ⟨h3, h4⟩ := oneOrTwoDigits_some hm
        obtain ⟨h5, h6⟩ := fourDigitsEnd_some hy
        subst h5 h3
        exact ⟨by simp [h1], h2, h4, h6⟩
      · cases h
    · cases h
  · cases h

/-- A month name found in the table, whatever its case. -/
theorem monthIndex_some {name : Str} {i : Nat} (h : monthIndex name = some i) :
    i < 12 ∧ ∃ m, monthNames[i]? = some m ∧ toLowerCase m = toLowerCase name := by
  unfold monthIndex at h
  simp only at h
  split at h
  · rename_i hlt
    cases h
    refine ⟨hlt, _, List.getElem?_eq_getElem hlt, ?_⟩
    have := List.findIdx_getElem (w := hlt)
    simpa using this
  · cases h

theorem monthIndex_of_lower {name m : Str} {i : Nat} (hm : monthNames[i]? = some m)
    (h : toLowerCase name = toLowerCase m) : monthIndex name = some i := by
  have hi : i < 12 := by
    by_contra hc
    have : monthNames[i]? = none := List.getElem?_eq_none (by simp [monthNames]; omega)
    rw [this] at hm
    cases hm
  unfold monthIndex
  rw [h]
  interval_cases i <;> (simp [monthNames] at hm; subst hm; decide)

theorem monthNumber_two_digits {i : Nat} (h : i < 12) :
    ∃ p q, padStart2 '0' (natToStr (i + 1)) = [p, q] ∧ isDigit p = true ∧ isDigit q = true := by
  interval_cases i <;> exact ⟨_, _, by rfl, by decide, by decide⟩

theorem monthNames_lower_shape :
    ∀ m ∈ monthNames, (toLowerCase m).all isWordChar = true ∧
      (match toLowerCase m with
        | c :: _ => !isDigit c
        | [] => false) = true := by
  decide

/-- A name that is a month name up to case consists of word characters and starts with a
character that is no digit. -/
theorem monthName_shape {name m : Str} (hm : m ∈ monthNames)
    (h : toLowerCase name = toLowerCase m) :
    (∀ c ∈ name, isWordChar c = true) ∧ ∃ c r, name = c :: r ∧ isDigit c = false := by
  obtain ⟨hw, hd⟩ := monthNames_lower_shape m hm
  rw [← h] at hw hd
  constructor
  · intro x hx
    have : x.toLower ∈ toLowerCase name := List.mem_map_of_mem _ hx
    have := List.all_eq_true.mp hw _ this
    rwa [isWordChar_toLower] at this
  · cases name with
    | nil => simp [toLowerCase] at hd
    | cons x xs =>
      refine ⟨x, xs, rfl, ?_⟩
      simp only [toLowerCase, List.map_cons, isDigit_toLower] at hd
      simpa using hd

theorem fourDigitsThenBoundary_of_not_digit {c : Char} (cs : Str) (h : isDigit c = false) :
    fourDigitsThenBoundary (c :: cs) = none := by
  unfold fourDigitsThenBoundary
  split
  · rename_i a b c2 d r heq
    cases heq
    simp [h]
  · rfl

theorem boundedYearSearch_word (w rest : Str) (hw : ∀ c ∈ w, isWordChar c = true) :
    boundedYearSearch true (w ++ rest) = boundedYearSearch true rest := by
  induction w with
  | nil => rfl
  | cons c cs ih =>
    have hc := hw c (List.mem_cons_self c cs)
    simp only [List.cons_append, boundedYearSearch, if_true, hc]
    exact ih (fun x hx => hw x (List.mem_cons_of_mem c hx))

theorem boundedYearSearch_space (p : Bool) (ws rest : Str) (hne : ws ≠ [])
    (hw : ∀ c ∈ ws, isSpace c = true) :
    boundedYearSearch p (ws ++ rest) = boundedYearSearch false rest := by
  induction ws generalizing p with
  | nil => exact absurd rfl hne
  | cons c cs ih =>
    have hc := hw c (List.mem_cons_self c cs)
    have h1 : (if p = true then none else fourDigitsThenBoundary (c :: (cs ++ rest))) = none := by
      split
      · rfl
      · exact fourDigitsThenBoundary_of_not_digit _ (not_isDigit_of_isSpace hc)
    rw [List.cons_append, boundedYearSearch, h1]
    simp only [not_isWordChar_of_isSpace hc]
    cases cs with
    | nil => rfl
    | cons d ds => exact ih false (by simp) (fun x hx => hw x (List.mem_cons_of_mem c hx))

theorem boundedYearSearch_day (day rest : Str) (hd : digits12 day) :
    boundedYearSearch false (day ++ ',' :: rest) = boundedYearSearch false rest := by
  rcases hd with ⟨a, rfl, ha⟩ | ⟨a, b, rfl, ha, hb⟩
  · have h1 : fourDigitsThenBoundary (a :: ',' :: rest) = none := by
      unfold fourDigitsThenBoundary
      split
      · rename_i heq; cases heq; simp [show isDigit ',' = false by decide]
      · rfl
    simp [boundedYearSearch, h1, isWordChar_of_isDigit ha]
    rfl
  · have h1 : fourDigitsThenBoundary (a :: b :: ',' :: rest) = none := by
      unfold fourDigitsThenBoundary
      split
      · rename_i heq; cases heq; simp [show isDigit ',' = false by decide]
      · rfl
    simp [boundedYearSearch, h1, isWordChar_of_isDigit ha, isWordChar_of_isDigit hb]
    rfl

theorem boundedYearSearch_year {y : Str} (hy : digits4 y) :
    boundedYearSearch false y = some y := by
  obtain ⟨a, b, c, d, rfl, ha, hb, hc, hd⟩ := hy
  simp [boundedYearSearch, fourDigitsThenBoundary, ha, hb, hc, hd]

/-- The shape of a string that `longMatch` accepts. -/
theorem longMatch_some {s name day year : Str} (h : longMatch s = some (name, day, year)) :
    ∃ ws1 ws2, s = name ++ (ws1 ++ (day ++ ',' :: (ws2 ++ year))) ∧
      name = s.takeWhile isWordChar ∧
      ws1 ≠ [] ∧ (∀ c ∈ ws1, isSpace c = true) ∧ digits12 day ∧
      ws2 ≠ [] ∧ (∀ c ∈ ws2, isSpace c = true) ∧ digits4 year := by
  unfold longMatch at h
  simp only at h
  split at h
  · cases h
  · rename_i hne
    simp only [Bool.or_eq_true, not_or, Bool.not_eq_true, List.isEmpty_eq_false] at hne
    split at h
    · rename_i d r hd
      split at h
      · cases h
      · rename_i hne2
        split at h
        · rename_i y hy
          cases h
          obtain ⟨h1, h2⟩ := oneOrTwoDigits_some hd
          obtain ⟨h3, h4⟩ := fourDigitsEnd_some hy
          refine ⟨(s.dropWhile isWordChar).takeWhile isSpace, r.takeWhile isSpace, ?_, rfl, ?_,
            ?_, h2, ?_, ?_, h4⟩
          · rw [← h3, List.takeWhile_append_dropWhile, ← h1, List.takeWhile_append_dropWhile,
              List.takeWhile_append_dropWhile]
          · intro hc; simp [hc] at hne
          · intro c hc; exact List.mem_takeWhile_imp hc
          · intro hc; simp [hc] at hne2
          · intro c hc; exact List.mem_takeWhile_imp hc
        · cases h
    · cases h

theorem takeWhile_append_stop {p : Char → Bool} (l : Str) (x : Char) (r : Str)
    (hl : ∀ c ∈ l, p c = true) (hx : p x = false) : (l ++ x :: r).takeWhile p = l := by
  rw [List.takeWhile_append_of_pos hl, List.takeWhile_cons_of_neg (by simp [hx])]
  simp

theorem dropWhile_append_stop {p : Char → Bool} (l : Str) (x : Char) (r : Str)
    (hl : ∀ c ∈ l, p c = true) (hx : p x = false) : (l ++ x :: r).dropWhile p = x :: r := by
  rw [List.dropWhile_append_of_pos hl, List.dropWhile_cons_of_neg (by simp [hx])]

/-- A string of the long form is accepted by `longMatch`. -/
theorem longMatch_build {name ws1 day ws2 year : Str} (hn : name ≠ [])
    (hnw : ∀ c ∈ name, isWordChar c = true) (h1 : ws1 ≠ []) (hs1 : ∀ c ∈ ws1, isSpace c = true)
    (hd : digits12 day) (h2 : ws2 ≠ []) (hs2 : ∀ c ∈ ws2, isSpace c = true) (hy : digits4 year) :
    longMatch (name ++ (ws1 ++ (day ++ ',' :: (ws2 ++ year)))) = some (name, day, year) := by
  obtain ⟨x, xs, rfl⟩ := List.exists_cons_of_ne_nil h1
  have hx : isSpace x = true := hs1 x (List.mem_cons_self x xs)
  obtain ⟨d0, dr, hday⟩ : ∃ d0 dr, day = d0 :: dr ∧ isDigit d0 = true := by
    rcases hd with ⟨a, rfl, ha⟩ | ⟨a, b, rfl, ha, hb⟩
    · exact ⟨a, [], rfl, ha⟩
    · exact ⟨a, [b], rfl, ha⟩
  obtain ⟨y0, yr, hyear⟩ : ∃ y0 yr, year = y0 :: yr ∧ isDigit y0 = true := by
    obtain ⟨a, b, c, d, rfl, ha, -⟩ := hy
    exact ⟨a, [b, c, d], rfl, ha⟩
  have hd0s : isSpace d0 = false := by
    cases hc : isSpace d0
    · rfl
    · have := not_isDigit_of_isSpace hc
      rw [hday.2] at this
      cases this
  have hy0s : isSpace y0 = false := by
    cases hc : isSpace y0
    · rfl
    · have := not_isDigit_of_isSpace hc
      rw [hyear.2] at this
      cases this
  have e1 : (name ++ ((x :: xs) ++ (day ++ ',' :: (ws2 ++ year)))).takeWhile isWordChar = name :=
    takeWhile_append_stop name x _ hnw (not_isWordChar_of_isSpace hx)
  have e2 : (name ++ ((x :: xs) ++ (day ++ ',' :: (ws2 ++ year)))).dropWhile isWordChar =
      (x :: xs) ++ (day ++ ',' :: (ws2 ++ year)) :=
    dropWhile_append_stop name x _ hnw (not_isWordChar_of_isSpace hx)
  have e3 : ((x :: xs) ++ (day ++ ',' :: (ws2 ++ year))).takeWhile isSpace = x :: xs := by
    rw [hday.1]
    exact takeWhile_append_stop (x :: xs) d0 _ hs1 hd0s
  have e4 : ((x :: xs) ++ (day ++ ',' :: (ws2 ++ year))).dropWhile isSpace =
      day ++ ',' :: (ws2 ++ year) := by
    rw [hday.1]
    exact dropWhile_append_stop (x :: xs) d0 _ hs1 hd0s
  have e5 : oneOrTwoDigits (day ++ ',' :: (ws2 ++ year)) = some (day, ',' :: (ws2 ++ year)) :=
    oneOrTwoDigits_append hd ',' _ (by decide)
  have e6 : (ws2 ++ year).takeWhile isSpace = ws2 := by
    rw [hyear.1]
    exact takeWhile_append_stop ws2 y0 _ hs2 hy0s
  have e7 : (ws2 ++ year).dropWhile isSpace = year := by
    rw [hyear.1]
    exact dropWhile_append_stop ws2 y0 _ hs2 hy0s
  have e8 : name.isEmpty = false := by
    cases name with
    | nil => exact absurd rfl hn
    | cons a b => rfl
  have e9 : ws2.isEmpty = false := by
    cases ws2 with
    | nil => exact absurd rfl h2
    | cons a b => rfl
  unfold longMatch
  simp only [e1, e2, e3, e4, e5, e6, e7, e8, e9, fourDigitsEnd_of_digits4 hy]
  simp

/-- In a string of the long form with a month name, the first bounded run of four digits is
the year. -/
theorem boundedYearMatch_long {name ws1 day ws2 year : Str}
    (hn : ∃ c r, name = c :: r ∧ isDigit c = false)
    (hnw : ∀ c ∈ name, isWordChar c = true) (h1 : ws1 ≠ []) (hs1 : ∀ c ∈ ws1, isSpace c = true)
    (hd : digits12 day) (h2 : ws2 ≠ []) (hs2 : ∀ c ∈ ws2, isSpace c = true) (hy : digits4 year) :
    boundedYearMatch (name ++ (ws1 ++ (day ++ ',' :: (ws2 ++ year)))) = some year := by
  obtain ⟨c, r, rfl, hc⟩ := hn
  unfold boundedYearMatch
  rw [List.cons_append, boundedYearSearch]
  simp only [Bool.false_eq_true, if_false, fourDigitsThenBoundary_of_not_digit _ hc,
    hnw c (List.mem_cons_self c r)]
  rw [boundedYearSearch_word r _ (fun x hx => hnw x (List.mem_cons_of_mem c hx)),
    boundedYearSearch_space true ws1 _ h1 hs1, boundedYearSearch_day day _ hd,
    boundedYearSearch_space false ws2 _ h2 hs2, boundedYearSearch_year hy]

theorem isoMatch_of_not_digit {c : Char} (r : Str) (h : isDigit c = false) :
    isoMatch (c :: r) = none := by
  unfold isoMatch
  split
  · rename_i heq
    cases heq
    simp [h]
  · rfl

theorem oneOrTwoDigits_of_not_digit {c : Char} (r : Str) (h : isDigit c = false) :
    oneOrTwoDigits (c :: r) = none := by
  cases r with
  | nil => simp [oneOrTwoDigits, h]
  | cons a b => simp [oneOrTwoDigits, h]

theorem ukMatch_of_not_digit {c : Char} (r : Str) (h : isDigit c = false) :
    ukMatch (c :: r) = none := by
  unfold ukMatch
  rw [oneOrTwoDigits_of_not_digit r h]

theorem ukMatch_build {day month year : Str} (hd : digits12 day) (hm : digits12 month)
    (hy : digits4 year) :
    ukMatch (day ++ '/' :: month ++ '/' :: year) = some (day, month, year) := by
  have e1 : oneOrTwoDigits (day ++ '/' :: month ++ '/' :: year) =
      some (day, '/' :: month ++ '/' :: year) := by
    have := oneOrTwoDigits_append hd '/' (month ++ '/' :: year) (by decide)
    simpa using this
  have e2 : oneOrTwoDigits (month ++ '/' :: year) = some (month, '/' :: year) :=
    oneOrTwoDigits_append hm '/' year (by decide)
  unfold ukMatch
  rw [e1]
  simp only [List.cons_append]
  simp only [e2, fourDigitsEnd_of_digits4 hy]

theorem isoMatch_slash_second (a : Char) (r : Str) : isoMatch (a :: '/' :: r) = none := by
  unfold isoMatch
  split
  · rename_i heq
    cases heq
    simp [show isDigit '/' = false by decide]
  · rfl

theorem isoMatch_slash_third (a b : Char) (r : Str) : isoMatch (a :: b :: '/' :: r) = none := by
  unfold isoMatch
  split
  · rename_i heq
    cases heq
    simp [show isDigit '/' = false by decide]
  · rfl

theorem isoMatch_uk {day : Str} (r : Str) (hd : digits12 day) :
    isoMatch (day ++ '/' :: r) = none := by
  rcases hd with ⟨a, rfl, -⟩ | ⟨a, b, rfl, -, -⟩
  · exact isoMatch_slash_second a r
  · exact isoMatch_slash_third a b r

/-- Normalising a date does not change the year that is extracted from it. -/
theorem extractYear_formatFullDate_all (dateStr : Option Str) :
    extractYear (some (formatFullDate dateStr)) = extractYear dateStr := by
  cases dateStr with
  | none => decide
  | some s =>
    cases s with
    | nil => decide
    | cons c cs =>
      cases hiso : isoMatch (c :: cs) with
      | some t => simp [formatFullDate, hiso]
      | none =>
        cases huk : ukMatch (c :: cs) with
        | some t =>
          obtain ⟨day, month, year⟩ := t
          obtain ⟨-, hd, hm, hy⟩ := ukMatch_some huk
          have h1 : formatFullDate (some (c :: cs)) =
              year ++ '-' :: padStart2 '0' month ++ '-' :: padStart2 '0' day := by
            simp [formatFullDate, hiso, huk]
          have h2 : extractYear (some (c :: cs)) = some (digitsValue 10 year) := by
            simp [extractYear, hiso, huk]
          rw [h1, h2]
          exact extractYear_build hy (padStart2_digits12 hm) (padStart2_digits12 hd)
        | none =>
          cases hlong : longMatch (c :: cs) with
          | some t =>
            obtain ⟨name, day, year⟩ := t
            cases hidx : monthIndex name with
            | some i =>
              obtain ⟨ws1, ws2, hs, -, h1, hs1, hd, h2, hs2, hy⟩ := longMatch_some hlong
              obtain ⟨hi, m, hm, hlow⟩ := monthIndex_some hidx
              have hmem : m ∈ monthNames := List.getElem?_mem hm
              obtain ⟨hnw, hn⟩ := monthName_shape hmem hlow.symm
              have hb : boundedYearMatch (c :: cs) = some year := by
                rw [hs]
                exact boundedYearMatch_long hn hnw h1 hs1 hd h2 hs2 hy
              have e1 : formatFullDate (some (c :: cs)) =
                  year ++ '-' :: padStart2 '0' (natToStr (i + 1)) ++ '-' :: padStart2 '0' day := by
                simp [formatFullDate, hiso, huk, hlong, hidx]
              have e2 : extractYear (some (c :: cs)) = some (digitsValue 10 year) := by
                simp [extractYear, hiso, huk, hb]
              rw [e1, e2]
              exact extractYear_build hy (monthNumber_two_digits hi) (padStart2_digits12 hd)
            | none =>
              cases hyr : yearMatch (c :: cs) with
              | some year =>
                obtain ⟨e, hy⟩ := fourDigitsEnd_some hyr
                have e1 : formatFullDate (some (c :: cs)) = year ++ "-01-01".toList := by
                  simp [formatFullDate, hiso, huk, hlong, hidx, hyr]
                have e2 : extractYear (some (c :: cs)) = some (digitsValue 10 year) := by
                  have hb : boundedYearMatch (c :: cs) = some year := by
                    rw [e]; exact boundedYearSearch_year hy
                  simp [extractYear, hiso, huk, hb]
                rw [e1, e2]
                have := extractYear_build hy ⟨'0', '1', rfl, by decide, by decide⟩
                  ⟨'0', '1', rfl, by decide, by decide⟩
                simpa [List.append_assoc] using this
              | none => simp [formatFullDate, hiso, huk, hlong, hidx, hyr]
          | none =>
            cases hyr : yearMatch (c :: cs) with
            | some year =>
              obtain ⟨e, hy⟩ := fourDigitsEnd_some hyr
              have e1 : formatFullDate (some (c :: cs)) = year ++ "-01-01".toList := by
                simp [formatFullDate, hiso, huk, hlong, hyr]
              have e2 : extractYear (some (c :: cs)) = some (digitsValue 10 year) := by
                have hb : boundedYearMatch (c :: cs) = some year := by
                  rw [e]; exact boundedYearSearch_year hy
                simp [extractYear, hiso, huk, hb]
              rw [e1, e2]
              have := extractYear_build hy ⟨'0', '1', rfl, by decide, by decide⟩
                ⟨'0', '1', rfl, by decide, by decide⟩
              simpa [List.append_assoc] using this
            | none => simp [formatFullDate, hiso, huk, hlong, hyr]

theorem formatFullDate_iso {s : Str} (h : isoDate s) : formatFullDate (some s) = s := by
  obtain ⟨y, m, d, hy, hm, hd, rfl⟩ := h
  have h := isoMatch_build hy hm hd
  obtain ⟨a, b, c, e, rfl, -⟩ := hy
  simp only [List.cons_append, List.nil_append] at h ⊢
  simp [formatFullDate, h]

theorem formatFullDate_uk {day month year : Str} (hd : digits12 day) (hm : digits12 month)
    (hy : digits4 year) :
    formatFullDate (some (day ++ '/' :: month ++ '/' :: year)) =
      year ++ '-' :: padStart2 '0' month ++ '-' :: padStart2 '0' day := by
  have h1 : isoMatch (day ++ '/' :: month ++ '/' :: year) = none := by
    have := isoMatch_uk (month ++ '/' :: year) hd
    simpa using this
  have h2 := ukMatch_build hd hm hy
  obtain ⟨d0, dr, hday⟩ : ∃ d0 dr, day = d0 :: dr := by
    rcases hd with ⟨a, rfl, -⟩ | ⟨a, b, rfl, -, -⟩
    · exact ⟨a, [], rfl⟩
    · exact ⟨a, [b], rfl⟩
  subst hday
  simp only [List.cons_append, List.append_assoc] at h1 h2 ⊢
  simp [formatFullDate, h1, h2]

theorem formatFullDate_long {name ws1 day ws2 year m : Str} {i : Nat}
    (hm : monthNames[i]? = some m) (hlow : toLowerCase name = toLowerCase m) (h1 : spaces ws1)
    (hd : digits12 day) (h2 : spaces ws2) (hy : digits4 year) :
    formatFullDate (some (name ++ (ws1 ++ (day ++ ',' :: (ws2 ++ year))))) =
      year ++ '-' :: padStart2 '0' (natToStr (i + 1)) ++ '-' :: padStart2 '0' day := by
  obtain ⟨hnw, c, r, rfl, hc⟩ := monthName_shape (List.getElem?_mem hm) hlow
  have e1 := longMatch_build (by simp) hnw h1.1 h1.2 hd h2.1 h2.2 hy
  have e2 := monthIndex_of_lower hm hlow
  simp only [List.cons_append] at e1 ⊢
  simp [formatFullDate, isoMatch_of_not_digit _ hc, ukMatch_of_not_digit _ hc, e1, e2]

theorem formatFullDate_year {year : Str} (hy : digits4 year) :
    formatFullDate (some year) = year ++ "-01-01".toList := by
  obtain ⟨a, b, c, d, rfl, ha, hb, hc, hd⟩ := hy
  have e1 : isoMatch [a, b, c, d] = none := rfl
  have e2 : ukMatch [a, b, c, d] = none := by
    have h0 : oneOrTwoDigits [a, b, c, d] = some ([a, b], [c, d]) := by
      simp [oneOrTwoDigits, ha, hb]
    unfold ukMatch
    rw [h0]
    split
    · rename_i heq
      simp only [Option.some.injEq, Prod.mk.injEq, List.cons.injEq] at heq
      rw [heq.2.1] at hc
      exact absurd hc (by decide)
    · rfl
  have e3 : longMatch [a, b, c, d] = none := by
    simp [longMatch, isWordChar_of_isDigit ha, isWordChar_of_isDigit hb,
      isWordChar_of_isDigit hc, isWordChar_of_isDigit hd]
  simp [formatFullDate, e1, e2, e3, yearMatch, fourDigitsEnd, ha, hb, hc, hd]

/-! ## Decade groups -/

/-- The step of the loop that fills `decades`. -/
theorem groupDecades_step (decades : List (Nat × List Episode)) (e : Episode) :
    (match extractYear e.broadcast_date with
      | some year => if year ≠ 0 then pushDecade decades (year / 10 * 10) e else decades
      | none => decades) =
    match decadeOf e with
    | some d => pushDecade decades d e
    | none => decades := by
  unfold decadeOf
  cases extractYear e.broadcast_date with
  | none => rfl
  | some y => by_cases h : y = 0 <;> simp [h]

theorem pushDecade_keys (D : List (Nat × List Episode)) (d : Nat) (e : Episode) :
    (pushDecade D d e).map Prod.fst =
      if d ∈ D.map Prod.fst then D.map Prod.fst else D.map Prod.fst ++ [d] := by
  induction D with
  | nil => simp [pushDecade]
  | cons g rest ih =>
    obtain ⟨k, es⟩ := g
    by_cases hk : k = d
    · simp [pushDecade, hk]
    · have hk2 : ¬ d = k := fun h => hk h.symm
      by_cases hm : d ∈ rest.map Prod.fst
      · simp only [pushDecade, hk, if_false, List.map_cons, ih, hm, if_true, List.mem_cons,
          or_true]
      · simp only [pushDecade, hk, if_false, List.map_cons, ih, hm, List.mem_cons, hk2,
          or_self, List.cons_append]

theorem pushDecade_mem (D : List (Nat × List Episode)) (d : Nat) (e : Episode)
    (hnd : (D.map Prod.fst).Nodup) :
    ∀ g ∈ pushDecade D d e,
      (g.1 = d ∧ ((∃ es, (d, es) ∈ D ∧ g.2 = es ++ [e]) ∨ (d ∉ D.map Prod.fst ∧ g.2 = [e]))) ∨
      (g.1 ≠ d ∧ g ∈ D) := by
  induction D with
  | nil =>
    intro g hg
    simp only [pushDecade, List.mem_singleton] at hg
    subst hg
    exact Or.inl ⟨rfl, Or.inr ⟨by simp, rfl⟩⟩
  | cons g0 rest ih =>
    obtain ⟨k, es⟩ := g0
    have hnd2 : (rest.map Prod.fst).Nodup := (List.nodup_cons.mp hnd).2
    have hk : k ∉ rest.map Prod.fst := (List.nodup_cons.mp hnd).1
    intro g hg
    by_cases hkd : k = d
    · subst hkd
      simp only [pushDecade, if_true, List.mem_cons] at hg
      rcases hg with hg | hg
      · subst hg
        exact Or.inl ⟨rfl, Or.inl ⟨es, List.mem_cons_self _ _, rfl⟩⟩
      · refine Or.inr ⟨?_, List.mem_cons_of_mem _ hg⟩
        intro h
        exact hk (h ▸ List.mem_map_of_mem Prod.fst hg)
    · simp only [pushDecade, hkd, if_false, List.mem_cons] at hg
      rcases hg with hg | hg
      · subst hg
        exact Or.inr ⟨hkd, List.mem_cons_self _ _⟩
      · rcases ih hnd2 g hg with ⟨h1, h2⟩ | ⟨h1, h2⟩
        · refine Or.inl ⟨h1, ?_⟩
          rcases h2 with ⟨es2, h3, h4⟩ | ⟨h3, h4⟩
          · exact Or.inl ⟨es2, List.mem_cons_of_mem _ h3, h4⟩
          · refine Or.inr ⟨?_, h4⟩
            simp only [List.map_cons, List.mem_cons, not_or]
            exact ⟨fun h => hkd h.symm, h3⟩
        · exact Or.inr ⟨h1, List.mem_cons_of_mem _ h2⟩

theorem DecadesInv_step (D : List (Nat × List Episode)) (l : List Episode) (e : Episode)
    (h : DecadesInv D l) :
    DecadesInv (match decadeOf e with
      | some d => pushDecade D d e
      | none => D) (l ++ [e]) := by
  obtain ⟨h1, h2, h3⟩ := h
  cases hd : decadeOf e with
  | none =>
    refine ⟨?_, h2, ?_⟩
    · intro g hg
      simp [List.filter_append, h1 g hg, hd, List.filter]
    · intro x hx d hxd
      rcases List.mem_append.mp hx with hx | hx
      · exact h3 x hx d hxd
      · simp only [List.mem_singleton] at hx
        subst hx
        rw [hd] at hxd
        cases hxd
  | some d =>
    have hkeys := pushDecade_keys D d e
    refine ⟨?_, ?_, ?_⟩
    · intro g hg
      rcases pushDecade_mem D d e h2 g hg with ⟨hg1, hg2⟩ | ⟨hg1, hg2⟩
      · rcases hg2 with ⟨es, hes, hg3⟩ | ⟨hnot, hg3⟩
        · have := h1 (d, es) hes
          simp only at this
          simp [List.filter_append, hg3, hg1, this, hd, List.filter]
        · have hnil : l.filter (fun x => decide (decadeOf x = some d)) = [] := by
            rw [List.filter_eq_nil_iff]
            intro x hx hxd
            exact hnot (h3 x hx d (by simpa using hxd))
          simp [List.filter_append, hg3, hg1, hnil, hd, List.filter]
      · have hne : ¬ (d = g.1) := fun h => hg1 h.symm
        simp [List.filter_append, h1 g hg2, hd, List.filter, hne]
    · rw [hkeys]
      split
      · exact h2
      · rename_i hnot
        rw [List.nodup_append]
        refine ⟨h2, List.nodup_singleton d, ?_⟩
        intro x hx hx2
        simp only [List.mem_singleton] at hx2
        subst hx2
        exact hnot hx
    · intro x hx k hxk
      rw [hkeys]
      rcases List.mem_append.mp hx with hx | hx
      · have := h3 x hx k hxk
        split
        · exact this
        · exact List.mem_append_left _ this
      · simp only [List.mem_singleton] at hx
        subst hx
        rw [hd] at hxk
        cases hxk
        split
        · assumption
        · simp

theorem DecadesInv_foldl (l : List Episode) :
    ∀ (D : List (Nat × List Episode)) (l0 : List Episode), DecadesInv D l0 →
      DecadesInv (l.foldl (fun decades episode =>
        match extractYear episode.broadcast_date with
        | some year =>
          if year ≠ 0 then pushDecade decades (year / 10 * 10) episode else decades
        | none => decades) D) (l0 ++ l) := by
  induction l with
  | nil => intro D l0 h; simpa using h
  | cons e l ih =>
    intro D l0 h
    have hs := DecadesInv_step D l0 e h
    rw [← groupDecades_step] at hs
    have := ih _ _ hs
    simpa using this

theorem groupDecades_inv (l : List Episode) : DecadesInv (groupDecades l) l := by
  have := DecadesInv_foldl l [] [] ⟨by simp, by simp, by simp⟩
  simpa [groupDecades] using this

theorem mem_displayDecadeGroups {st : State} {g : Nat × List Episode}
    (h : g ∈ displayDecadeGroups st) :
    ∃ g0 ∈ groupDecades st.filtered, g = (g0.1, jsSort decadeRankCompare g0.2) := by
  unfold displayDecadeGroups at h
  obtain ⟨g0, hg0, rfl⟩ := List.mem_map.mp h
  exact ⟨g0, (jsSort_perm _ _).mem_iff.mp hg0, rfl⟩

theorem displayDecadeGroups_of_mem {st : State} {g0 : Nat × List Episode}
    (h : g0 ∈ groupDecades st.filtered) :
    (g0.1, jsSort decadeRankCompare g0.2) ∈ displayDecadeGroups st := by
  unfold displayDecadeGroups
  exact List.mem_map.mpr ⟨g0, (jsSort_perm _ _).mem_iff.mpr h, rfl⟩


/-! ## Reading a line of CSV -/

theorem splitCSVAux_plain (cell : Str) (c : Char) (rest : Str) (h1 : c ≠ ',') (h2 : c ≠ '"') :
    splitCSVAux false cell (c :: rest) = splitCSVAux false (cell ++ [c]) rest := by
  simp [splitCSVAux, h1, h2]

theorem splitCSVAux_comma (cell rest : Str) :
    splitCSVAux false cell (',' :: rest) = cell :: splitCSVAux false [] rest := by
  simp [splitCSVAux]

theorem splitCSVAux_open (cell rest : Str) :
    splitCSVAux false cell ('"' :: rest) = splitCSVAux true cell rest := by
  simp [splitCSVAux]

theorem splitCSVAux_doubled (cell rest : Str) :
    splitCSVAux true cell ('"' :: '"' :: rest) = splitCSVAux true (cell ++ ['"']) rest := by
  simp [splitCSVAux]

theorem splitCSVAux_close_end (cell : Str) :
    splitCSVAux true cell ['"'] = [cell] := by
  simp [splitCSVAux]

theorem splitCSVAux_close_comma (cell rest : Str) :
    splitCSVAux true cell ('"' :: ',' :: rest) = cell :: splitCSVAux false [] rest := by
  simp [splitCSVAux]

theorem splitCSVAux_quoted (cell : Str) (c : Char) (rest : Str) (h : c ≠ '"') :
    splitCSVAux true cell (c :: rest) = splitCSVAux true (cell ++ [c]) rest := by
  rw [splitCSVAux]
  · intro r hr _
    exact h hr
  · intro hr
    exact h hr

/-- A cell without comma and quote is read off as it is. -/
theorem splitCSVAux_plain_run (cell s rest : Str)
    (h : ∀ c ∈ s, c ≠ ',' ∧ c ≠ '"') :
    splitCSVAux false cell (s ++ rest) = splitCSVAux false (cell ++ s) rest := by
  induction s generalizing cell with
  | nil => simp
  | cons c cs ih =>
    have hc := h c (List.mem_cons_self c cs)
    rw [List.cons_append, splitCSVAux_plain _ _ _ hc.1 hc.2,
      ih _ (fun x hx => h x (List.mem_cons_of_mem c hx))]
    simp

/-- The body of a quoted cell is read back with its quotes single, up to the closing quote. -/
theorem splitCSVAux_quoted_run (cell s rest : Str) :
    splitCSVAux true cell (Filip.replaceQuotes s ++ rest) =
      splitCSVAux true (cell ++ s) rest := by
  induction s generalizing cell with
  | nil => simp [Filip.replaceQuotes]
  | cons c cs ih =>
    by_cases hc : c = '"'
    · subst hc
      simp only [Filip.replaceQuotes, if_true, List.cons_append]
      rw [splitCSVAux_doubled, ih]
      simp
    · simp only [Filip.replaceQuotes, hc, if_false, List.cons_append]
      rw [splitCSVAux_quoted _ _ _ hc, ih]
      simp

theorem needsQuoting_false {s : Str} (h : Filip.needsQuoting s = false) :
    ∀ c ∈ s, c ≠ ',' ∧ c ≠ '"' := by
  intro c hc
  unfold Filip.needsQuoting at h
  rw [List.any_eq_false] at h
  have := h c hc
  simp only [Bool.or_eq_true, beq_iff_eq, not_or] at this
  exact ⟨this.1.2, this.1.1⟩

/-- A cell written by `escapeCSV` at the end of the line is read back. -/
theorem splitCSVAux_cell_end (s : Str) :
    splitCSVAux false [] (Filip.escapeCSV (.str s)) = [s] := by
  unfold Filip.escapeCSV
  simp only [Filip.stringValue, JSVal.toStr]
  split
  · rw [List.cons_append, splitCSVAux_open, splitCSVAux_quoted_run, splitCSVAux_close_end]
    simp
  · rename_i h
    have h2 := needsQuoting_false (Bool.eq_false_iff.mpr h)
    have := splitCSVAux_plain_run [] s [] h2
    simpa [splitCSVAux] using this

/-- A cell written by `escapeCSV` before a comma is read back, and the scan goes on after
the comma. -/
theorem splitCSVAux_cell_comma (s rest : Str) :
    splitCSVAux false [] (Filip.escapeCSV (.str s) ++ ',' :: rest) =
      s :: splitCSVAux false [] rest := by
  unfold Filip.escapeCSV
  simp only [Filip.stringValue, JSVal.toStr]
  split
  · rw [List.cons_append, List.cons_append, splitCSVAux_open, List.append_assoc,
      splitCSVAux_quoted_run]
    simp only [List.singleton_append, List.nil_append]
    rw [splitCSVAux_close_comma]
  · rename_i h
    have h2 := needsQuoting_false (Bool.eq_false_iff.mpr h)
    rw [splitCSVAux_plain_run [] s _ h2, splitCSVAux_comma]
    simp

/-- The round trip of a row that has at least one cell. -/
theorem splitCSV_csvRow (cell : Str) (cells : List Str) :
    splitCSV (Filip.csvRow ((cell :: cells).map JSVal.str)) = cell :: cells := by
  induction cells generalizing cell with
  | nil => exact splitCSVAux_cell_end cell
  | cons c cs ih =>
    have h := ih c
    unfold splitCSV Filip.csvRow at h ⊢
    simp only [List.map_cons, Filip.jsJoin] at h ⊢
    rw [List.append_assoc, List.singleton_append, splitCSVAux_cell_comma]
    rw [h]

/-! ## Validation of a batch -/

theorem validateLoop_unroll (host : DateHost) (now : Int) (suf : List Episode) :
    ∀ pre : List Episode,
      Filip.validateLoop host now (seenRanksOf pre) pre.length suf =
        (List.range suf.length).flatMap fun k => warningsAt host now (pre ++ suf) (pre.length + k) := by
  induction suf with
  | nil => intro pre; simp [Filip.validateLoop]
  | cons e es ih =>
    intro pre
    have h1 : Filip.seenAfter (seenRanksOf pre) e = seenRanksOf (pre ++ [e]) := by
      simp [seenRanksOf, List.foldl_append]
    have h2 := ih (pre ++ [e])
    simp only [List.length_append, List.length_singleton, List.append_assoc,
      List.singleton_append] at h2
    rw [Filip.validateLoop, h1, h2, List.length_cons, List.range_succ_eq_map,
      List.flatMap_cons, List.flatMap_map]
    congr 1
    · have hg : (pre ++ e :: es)[pre.length]? = some e := by
        rw [List.getElem?_append_right (Nat.le_refl _)]
        simp
      simp [warningsAt, hg]
    · apply List.flatMap_congr
      intro k _
      simp only [Function.comp, Nat.succ_eq_add_one]
      rw [show pre.length + 1 + k = pre.length + (k + 1) by omega]

theorem validateData_unroll (host : DateHost) (now : Int) (eps : List Episode) :
    Filip.validateData host now eps =
      (List.range eps.length).flatMap fun i => warningsAt host now eps i := by
  have := validateLoop_unroll host now eps []
  simpa [Filip.validateData, seenRanksOf] using this

theorem mem_seenRanksOf (l : List Episode) (r : Int) :
    r ∈ seenRanksOf l ↔ ∃ e ∈ l, e.rank = JSVal.num r := by
  induction l using List.reverseRecOn with
  | nil => simp [seenRanksOf]
  | append_singleton l e ih =>
    have h : seenRanksOf (l ++ [e]) = Filip.seenAfter (seenRanksOf l) e := by
      simp [seenRanksOf, List.foldl_append]
    rw [h]
    unfold Filip.seenAfter
    cases hr : e.rank with
    | num n =>
      simp only
      split
      · rename_i hn
        rw [ih]
        constructor
        · rintro ⟨x, hx, hxr⟩
          exact ⟨x, List.mem_append_left _ hx, hxr⟩
        · rintro ⟨x, hx, hxr⟩
          rcases List.mem_append.mp hx with hx | hx
          · exact ⟨x, hx, hxr⟩
          · simp only [List.mem_singleton] at hx
            subst hx
            rw [hr] at hxr
            cases hxr
            exact ih.mp hn
      · rw [List.mem_append, ih]
        constructor
        · rintro (⟨x, hx, hxr⟩ | h)
          · exact ⟨x, List.mem_append_left _ hx, hxr⟩
          · simp only [List.mem_singleton] at h
            exact ⟨e, by simp, by rw [hr, h]⟩
        · rintro ⟨x, hx, hxr⟩
          rcases List.mem_append.mp hx with hx | hx
          · exact Or.inl ⟨x, hx, hxr⟩
          · simp only [List.mem_singleton] at hx
            subst hx
            rw [hr] at hxr
            cases hxr
            exact Or.inr (by simp)
    | undefined =>
      simp only [ih]
      constructor
      · rintro ⟨x, hx, hxr⟩
        exact ⟨x, List.mem_append_left _ hx, hxr⟩
      · rintro ⟨x, hx, hxr⟩
        rcases List.mem_append.mp hx with hx | hx
        · exact ⟨x, hx, hxr⟩
        · simp only [List.mem_singleton] at hx
          subst hx
          rw [hr] at hxr
          cases hxr
    | null =>
      simp only [ih]
      constructor
      · rintro ⟨x, hx, hxr⟩
        exact ⟨x, List.mem_append_left _ hx, hxr⟩
      · rintro ⟨x, hx, hxr⟩
        rcases List.mem_append.mp hx with hx | hx
        · exact ⟨x, hx, hxr⟩
        · simp only [List.mem_singleton] at hx
          subst hx
          rw [hr] at hxr
          cases hxr
    | str s =>
      simp only [ih]
      constructor
      · rintro ⟨x, hx, hxr⟩
        exact ⟨x, List.mem_append_left _ hx, hxr⟩
      · rintro ⟨x, hx, hxr⟩
        rcases List.mem_append.mp hx with hx | hx
        · exact ⟨x, hx, hxr⟩
        · simp only [List.mem_singleton] at hx
          subst hx
          rw [hr] at hxr
          cases hxr

theorem flatMap_range_single {β : Type} (g : Nat → List β) (i n : Nat)
    (h : ∀ j, j ≠ i → g j = []) :
    (List.range n).flatMap g = if i < n then g i else [] := by
  induction n with
  | zero => simp
  | succ n ih =>
    rw [List.range_succ, List.flatMap_append, ih]
    by_cases hi : i < n
    · have hne : n ≠ i := by omega
      simp [hi, h n hne, Nat.lt_succ_of_lt hi]
    · by_cases hin : i = n
      · subst hin
        simp
      · have hne : n ≠ i := fun x => hin x.symm
        have : ¬ i < n + 1 := by omega
        simp [hi, this, h n hne]

theorem flatMap_if_singleton (l : List Nat) (p : Nat → Bool) :
    (l.flatMap fun i => if p i = true then [i] else []) = l.filter p := by
  induction l with
  | nil => rfl
  | cons a l ih =>
    rw [List.flatMap_cons, ih]
    by_cases h : p a = true <;> simp [h]

theorem duplicateRank_not_mem_missing (e : Episode) (j i : Nat) (t : Option Str) (r : Int) :
    Filip.Warning.duplicateRank i t r ∉ Filip.missingFieldWarnings e j := by
  simp [Filip.missingFieldWarnings]

theorem duplicateRank_not_mem_future (host : DateHost) (now : Int) (e : Episode) (j i : Nat)
    (t : Option Str) (r : Int) :
    Filip.Warning.duplicateRank i t r ∉ Filip.futureDateWarnings host now e j := by
  unfold Filip.futureDateWarnings
  split
  · split <;> simp
  · simp

theorem duplicateRank_not_mem_series (e : Episode) (j i : Nat) (t : Option Str) (r : Int) :
    Filip.Warning.duplicateRank i t r ∉ Filip.seriesWarnings e j := by
  unfold Filip.seriesWarnings
  split
  · split <;> simp
  · simp

theorem duplicateRank_mem_rankWarnings (seen : List Int) (e : Episode) (j i : Nat)
    (t : Option Str) (r : Int) :
    Filip.Warning.duplicateRank i t r ∈ Filip.rankWarnings seen e j ↔
      j = i ∧ e.title = t ∧ e.rank = .num r ∧ r ∈ seen := by
  unfold Filip.rankWarnings
  cases hr : e.rank with
  | num n =>
    simp only
    split
    · rename_i hn
      simp only [List.mem_singleton, Filip.Warning.duplicateRank.injEq, JSVal.num.injEq]
      constructor
      · rintro ⟨a, b, c⟩
        subst c
        exact ⟨a.symm, b.symm, rfl, hn⟩
      · rintro ⟨a, b, c, _⟩
        exact ⟨a.symm, b.symm, c.symm⟩
    · rename_i hn
      simp only [List.not_mem_nil, JSVal.num.injEq, false_iff, not_and]
      intro _ _ c
      subst c
      exact hn
  | undefined => simp
  | null => simp
  | str s => simp

/-- The duplicate-rank warning that the callback pushes for a record. -/
theorem episodeWarnings_duplicateRank (host : DateHost) (now : Int) (seen : List Int)
    (e : Episode) (j i : Nat) (t : Option Str) (r : Int) :
    Filip.Warning.duplicateRank i t r ∈ Filip.episodeWarnings host now seen e j ↔
      j = i ∧ e.title = t ∧ e.rank = .num r ∧ r ∈ seen := by
  unfold Filip.episodeWarnings
  simp only [List.mem_append, duplicateRank_not_mem_missing, duplicateRank_not_mem_future,
    duplicateRank_not_mem_series, false_or, or_false, duplicateRank_mem_rankWarnings]

theorem filterMap_duplicateAt_missing (e : Episode) (j : Nat) :
    (Filip.missingFieldWarnings e j).filterMap duplicateAt = [] := by
  unfold Filip.missingFieldWarnings
  rw [List.filterMap_map]
  generalize List.filter (fun field => Filip.isMissing (e.get field)) Filip.requiredFields = l
  induction l with
  | nil => rfl
  | cons a l ih => simp [List.filterMap_cons, duplicateAt, ih]

theorem filterMap_duplicateAt_future (host : DateHost) (now : Int) (e : Episode) (j : Nat) :
    (Filip.futureDateWarnings host now e j).filterMap duplicateAt = [] := by
  unfold Filip.futureDateWarnings
  split
  · split <;> simp [duplicateAt]
  · simp

theorem filterMap_duplicateAt_series (e : Episode) (j : Nat) :
    (Filip.seriesWarnings e j).filterMap duplicateAt = [] := by
  unfold Filip.seriesWarnings
  split
  · split <;> simp [duplicateAt]
  · simp

theorem episodeWarnings_duplicateAt (host : DateHost) (now : Int) (seen : List Int)
    (e : Episode) (j : Nat) :
    (Filip.episodeWarnings host now seen e j).filterMap duplicateAt =
      (Filip.rankWarnings seen e j).filterMap duplicateAt := by
  unfold Filip.episodeWarnings
  simp [List.filterMap_append, filterMap_duplicateAt_missing, filterMap_duplicateAt_future,
    filterMap_duplicateAt_series]

theorem rankWarnings_duplicateAt (earlier : List Episode) (rank : JSVal) (e : Episode)
    (j : Nat) (h : e.rank = rank) :
    (Filip.rankWarnings (seenRanksOf earlier) e j).filterMap duplicateAt =
      if rankRepeats earlier rank = true then [j] else [] := by
  unfold Filip.rankWarnings
  rw [h]
  cases rank with
  | num n =>
    have : n ∈ seenRanksOf earlier ↔ (earlier.any fun x => x.rank == JSVal.num n) = true := by
      rw [mem_seenRanksOf, List.any_eq_true]
      simp
    by_cases hn : n ∈ seenRanksOf earlier
    · simp [rankRepeats, hn, this.mp hn, duplicateAt]
    · have h2 : ¬ (earlier.any fun x => x.rank == JSVal.num n) = true := fun h => hn (this.mpr h)
      simp [rankRepeats, hn, h2]
  | undefined => simp [rankRepeats, duplicateAt]
  | null => simp [rankRepeats, duplicateAt]
  | str s => simp [rankRepeats, duplicateAt]

theorem warningsAt_duplicateAt (host : DateHost) (now : Int) (eps : List Episode) (i : Nat) :
    (warningsAt host now eps i).filterMap duplicateAt =
      if repeatsEarlierRank eps i = true then [i] else [] := by
  unfold warningsAt repeatsEarlierRank
  cases hi : eps[i]? with
  | none => simp
  | some e =>
    simp only
    rw [episodeWarnings_duplicateAt]
    exact rankWarnings_duplicateAt _ _ _ _ rfl

theorem countP_missingFieldAt_future (host : DateHost) (now : Int) (e : Episode) (j i : Nat)
    (f : Field) : (Filip.futureDateWarnings host now e j).countP (isMissingFieldAt i f) = 0 := by
  unfold Filip.futureDateWarnings
  split
  · split <;> simp [isMissingFieldAt]
  · simp

theorem countP_missingFieldAt_rank (seen : List Int) (e : Episode) (j i : Nat) (f : Field) :
    (Filip.rankWarnings seen e j).countP (isMissingFieldAt i f) = 0 := by
  unfold Filip.rankWarnings
  split
  · split <;> simp [isMissingFieldAt]
  · simp [isMissingFieldAt]

theorem countP_missingFieldAt_series (e : Episode) (j i : Nat) (f : Field) :
    (Filip.seriesWarnings e j).countP (isMissingFieldAt i f) = 0 := by
  unfold Filip.seriesWarnings
  split
  · split <;> simp [isMissingFieldAt]
  · simp

theorem countP_missingFieldAt_missing (e : Episode) (j i : Nat) (f : Field)
    (hf : f ∈ Filip.requiredFields) :
    (Filip.missingFieldWarnings e j).countP (isMissingFieldAt i f) =
      if j = i ∧ Filip.isMissing (e.get f) = true then 1 else 0 := by
  unfold Filip.missingFieldWarnings
  rw [List.countP_map]
  by_cases hji : j = i
  · subst hji
    simp only [Filip.requiredFields, List.mem_cons, List.mem_singleton, List.not_mem_nil,
      or_false] at hf
    rcases hf with rfl | rfl | rfl | rfl <;>
      cases h1 : Filip.isMissing (e.get Field.rank) <;>
      cases h2 : Filip.isMissing (e.get Field.title) <;>
      cases h3 : Filip.isMissing (e.get Field.era) <;>
      cases h4 : Filip.isMissing (e.get Field.broadcast_date) <;>
      simp [Filip.requiredFields, List.filter_cons, h1, h2, h3, h4, isMissingFieldAt,
        Function.comp_def, List.countP_cons]
  · have : ∀ l : List Field,
        List.countP (isMissingFieldAt i f ∘ fun field =>
          Filip.Warning.missingField j e.title field) l = 0 := by
      intro l
      rw [List.countP_eq_zero]
      intro g _
      simp [isMissingFieldAt, hji]
    simp [this, hji]

theorem episodeWarnings_countP_missingFieldAt (host : DateHost) (now : Int) (seen : List Int)
    (e : Episode) (j i : Nat) (f : Field) (hf : f ∈ Filip.requiredFields) :
    (Filip.episodeWarnings host now seen e j).countP (isMissingFieldAt i f) =
      if j = i ∧ Filip.isMissing (e.get f) = true then 1 else 0 := by
  unfold Filip.episodeWarnings
  simp only [List.countP_append, countP_missingFieldAt_future, countP_missingFieldAt_rank,
    countP_missingFieldAt_series, countP_missingFieldAt_missing e j i f hf, Nat.add_zero]

theorem isMissing_iff (v : JSVal) :
    Filip.isMissing v = true ↔ v = .undefined ∨ v = .null ∨ v = .str [] := by
  cases v with
  | undefined => simp [Filip.isMissing]
  | null => simp [Filip.isMissing]
  | num n => simp [Filip.isMissing]
  | str s => cases s <;> simp [Filip.isMissing]

theorem validateData_countP_missingFieldAt (host : DateHost) (now : Int) (eps : List Episode)
    (i : Nat) (e : Episode) (f : Field) (hi : eps[i]? = some e)
    (hf : f ∈ Filip.requiredFields) :
    (Filip.validateData host now eps).countP (isMissingFieldAt i f) =
      if Filip.isMissing (e.get f) = true then 1 else 0 := by
  have hlt : i < eps.length := by
    by_contra hc
    rw [List.getElem?_eq_none (by omega)] at hi
    cases hi
  rw [validateData_unroll, List.countP_eq_length_filter, List.filter_flatMap,
    flatMap_range_single _ i]
  · simp only [hlt, if_true, ← List.countP_eq_length_filter]
    unfold warningsAt
    simp only [hi]
    rw [episodeWarnings_countP_missingFieldAt _ _ _ _ _ _ _ hf]
    simp
  · intro j hj
    rw [List.filter_eq_nil_iff]
    have hz : (warningsAt host now eps j).countP (isMissingFieldAt i f) = 0 := by
      unfold warningsAt
      cases hg : eps[j]? with
      | none => simp
      | some x =>
        simp only
        rw [episodeWarnings_countP_missingFieldAt _ _ _ _ _ _ _ hf]
        simp [hj]
    rw [List.countP_eq_zero] at hz
    exact hz


/-! ## The regular sort -/

theorem lexLt_irrefl (a : List Nat) : lexLt a a = false := by
  induction a with
  | nil => rfl
  | cons x xs ih => simp [lexLt, ih]

theorem lexLt_asymm : ∀ (a b : List Nat), lexLt a b = true → lexLt b a = false
  | [], [], h => by simp [lexLt] at h
  | [], _ :: _, _ => by simp [lexLt]
  | _ :: _, [], h => by simp [lexLt] at h
  | x :: xs, y :: ys, h => by
    simp only [lexLt] at h ⊢
    by_cases h1 : x < y
    · have h2 : ¬ y < x := by omega
      simp [h2, h1]
    · by_cases h2 : y < x
      · simp [h1, h2] at h
      · simp only [h1, h2, if_false] at h ⊢
        exact lexLt_asymm xs ys h

theorem lexLt_negtrans : ∀ (a b c : List Nat), lexLt a b = false → lexLt b c = false →
    lexLt a c = false
  | [], [], c, _, h2 => h2
  | [], _ :: _, _, h1, _ => by simp [lexLt] at h1
  | _ :: _, _, [], _, _ => by simp [lexLt]
  | _ :: _, [], _ :: _, _, h2 => by simp [lexLt] at h2
  | x :: xs, y :: ys, z :: zs, h1, h2 => by
    simp only [lexLt] at h1 h2 ⊢
    by_cases hxy : x < y
    · simp [hxy] at h1
    · by_cases hyz : y < z
      · simp [hyz] at h2
      · by_cases hyx : y < x
        · have hxz : ¬ x < z := by omega
          have hzx : z < x := by
            by_cases hzy : z < y
            · omega
            · have : y = z := by omega
              omega
          simp [hxz, hzx]
        · by_cases hzy : z < y
          · have : ¬ x < z := by omega
            have : z < x := by omega
            simp [*]
          · have hxe : x = y := by omega
            have hye : y = z := by omega
            subst hxe hye
            simp only [hxy, if_false] at h1 h2 ⊢
            exact lexLt_negtrans xs ys zs h1 h2

theorem fieldCompare_eq (host : DateHost) (field : Field) (ascending : Bool) (a b : Episode) :
    fieldCompare host field ascending a b =
      .int (if ascending then threeWay (fieldLt host field a b) (fieldLt host field b a)
        else -threeWay (fieldLt host field a b) (fieldLt host field b a)) := by
  unfold fieldCompare fieldLt
  by_cases h1 : field = Field.rank ∨ field = Field.series ∨ field = Field.cast
  · simp only [h1, if_true, gt_iff_lt]
  · by_cases h2 : field = Field.broadcast_date
    · subst h2
      simp
    · simp only [h1, h2, if_false]

theorem digitVal_le_nine {c : Char} (h : isDigit c = true) : (digitVal c).getD 0 ≤ 9 := by
  rw [isDigit_iff] at h
  unfold digitVal
  have h0 : '0'.toNat = 48 := rfl
  simp only [Bool.and_eq_true, decide_eq_true_eq, char_le_iff, h0]
  have h9 : '9'.toNat = 57 := rfl
  rw [h9]
  simp only [h.1, h.2, and_self, if_true, Option.getD_some]
  omega

theorem digitsValue_digits4_le {y : Str} (h : digits4 y) : digitsValue 10 y ≤ 9999 := by
  obtain ⟨a, b, c, d, rfl, ha, hb, hc, hd⟩ := h
  have := digitVal_le_nine ha
  have := digitVal_le_nine hb
  have := digitVal_le_nine hc
  have := digitVal_le_nine hd
  simp only [digitsValue, List.foldl_cons, List.foldl_nil]
  omega

theorem isoMatch_some {s y m d : Str} (h : isoMatch s = some (y, m, d)) : digits4 y := by
  unfold isoMatch at h
  split at h
  · split at h
    · rename_i hd
      simp only [Bool.and_eq_true] at hd
      cases h
      exact ⟨_, _, _, _, rfl, hd.1.1.1.1.1.1.1, hd.1.1.1.1.1.1.2, hd.1.1.1.1.1.2, hd.1.1.1.1.2⟩
    · cases h
  · cases h

theorem fourDigitsThenBoundary_some {s y : Str} (h : fourDigitsThenBoundary s = some y) :
    digits4 y := by
  unfold fourDigitsThenBoundary at h
  split at h
  · split at h
    · rename_i hd
      simp only [Bool.and_eq_true] at hd
      cases h
      exact ⟨_, _, _, _, rfl, hd.1.1.1.1, hd.1.1.1.2, hd.1.1.2, hd.1.2⟩
    · cases h
  · cases h

theorem boundedYearSearch_some {s y : Str} {p : Bool} (h : boundedYearSearch p s = some y) :
    digits4 y := by
  induction s generalizing p with
  | nil => simp [boundedYearSearch] at h
  | cons c cs ih =>
    rw [boundedYearSearch] at h
    split at h
    · rename_i y2 hy
      cases h
      split at hy
      · cases hy
      · exact fourDigitsThenBoundary_some hy
    · exact ih h

/-- A year that `extractYear` yields has at most four digits. -/
theorem extractYear_le {d : Option Str} {y : Nat} (h : extractYear d = some y) : y ≤ 9999 := by
  unfold extractYear at h
  split at h
  · cases h
  · cases h
  · split at h
    · rename_i yy mm dd hiso
      cases h
      exact digitsValue_digits4_le (isoMatch_some hiso)
    · split at h
      · rename_i dd mm yy huk
        cases h
        exact digitsValue_digits4_le (ukMatch_some huk).2.2.2
      · split at h
        · rename_i yy hb
          cases h
          exact digitsValue_digits4_le (boundedYearSearch_some hb)
        · split at h
          · rename_i yy hy
            cases h
            exact digitsValue_digits4_le (fourDigitsEnd_some hy).2
          · cases h

/-- With a host that builds the dates, `parseDate` yields a time value for every input. -/
theorem parseDate_int (host : DateHost) (hv : validDates host) (d : Option Str) :
    ∃ t : Int, parseDate host d = .int t := by
  unfold parseDate
  split
  · rename_i y hy
    split
    · exact hv y (extractYear_le hy)
    · exact ⟨0, rfl⟩
  · exact ⟨0, rfl⟩

theorem fieldLt_asymm (host : DateHost) (field : Field) (a b : Episode)
    (h : fieldLt host field a b = true) : fieldLt host field b a = false := by
  unfold fieldLt at h ⊢
  split
  · rename_i hf
    simp only [hf, if_true, decide_eq_true_eq] at h
    simp only [decide_eq_false_iff_not]
    omega
  · rename_i hf
    simp only [hf, if_false] at h
    split
    · rename_i hd
      simp only [hd, if_true] at h
      cases hx : parseDate host a.broadcast_date <;> cases hy : parseDate host b.broadcast_date <;>
        simp [hx, hy, JSNum.lt] at h ⊢
      omega
    · rename_i hd
      simp only [hd, if_false] at h
      exact lexLt_asymm _ _ h

theorem fieldLt_negtrans (host : DateHost) (hv : validDates host) (field : Field)
    (a b c : Episode) (h1 : fieldLt host field a b = false) (h2 : fieldLt host field b c = false) :
    fieldLt host field a c = false := by
  unfold fieldLt at h1 h2 ⊢
  split
  · rename_i hf
    simp only [hf, if_true, decide_eq_false_iff_not] at h1 h2 ⊢
    omega
  · rename_i hf
    simp only [hf, if_false] at h1 h2
    split
    · rename_i hd
      simp only [hd, if_true] at h1 h2
      obtain ⟨x, hx⟩ := parseDate_int host hv a.broadcast_date
      obtain ⟨y, hy⟩ := parseDate_int host hv b.broadcast_date
      obtain ⟨z, hz⟩ := parseDate_int host hv c.broadcast_date
      simp only [hx, hy, hz, JSNum.lt, decide_eq_false_iff_not] at h1 h2 ⊢
      omega
    · rename_i hd
      simp only [hd, if_false] at h1 h2
      exact lexLt_negtrans _ _ _ h1 h2

theorem fieldOrder_total (host : DateHost) (field : Field) (asc : Bool) (a b : Episode) :
    fieldOrder host field asc a b ∨ fieldOrder host field asc b a := by
  unfold fieldOrder
  cases asc
  · simp only [Bool.false_eq_true, if_false]
    cases h : fieldLt host field a b
    · exact Or.inl rfl
    · exact Or.inr (fieldLt_asymm host field a b h)
  · simp only [if_true]
    cases h : fieldLt host field b a
    · exact Or.inl rfl
    · exact Or.inr (fieldLt_asymm host field b a h)

theorem fieldOrder_trans (host : DateHost) (hv : validDates host) (field : Field) (asc : Bool)
    (a b c : Episode) (h1 : fieldOrder host field asc a b) (h2 : fieldOrder host field asc b c) :
    fieldOrder host field asc a c := by
  unfold fieldOrder at *
  cases asc
  · simp only [Bool.false_eq_true, if_false] at h1 h2 ⊢
    exact fieldLt_negtrans host hv field a b c h1 h2
  · simp only [if_true] at h1 h2 ⊢
    exact fieldLt_negtrans host hv field c b a h2 h1

theorem fieldCompare_order_iff (host : DateHost) (field : Field) (asc : Bool) (a b : Episode) :
    (fieldCompare host field asc a b).order ≤ 0 ↔ fieldOrder host field asc a b := by
  rw [fieldCompare_eq]
  unfold fieldOrder threeWay JSNum.order
  cases asc <;> cases hab : fieldLt host field a b <;> cases hba : fieldLt host field b a
  all_goals simp
  have := fieldLt_asymm host field a b hab
  rw [hba] at this
  cases this

/-- The regular comparator puts every two episodes in at least one order. -/
theorem fieldCompare_total (host : DateHost) (field : Field) (asc : Bool) (a b : Episode) :
    (fieldCompare host field asc a b).order ≤ 0 ∨ (fieldCompare host field asc b a).order ≤ 0 := by
  rw [fieldCompare_order_iff, fieldCompare_order_iff]
  exact fieldOrder_total host field asc a b

/-- The regular sort leaves the list in the order of the field and the direction. -/
theorem jsSort_fieldCompare_pairwise (host : DateHost) (hv : validDates host) (field : Field)
    (asc : Bool) (l : List Episode) :
    (jsSort (fieldCompare host field asc) l).Pairwise (fieldOrder host field asc) :=
  jsSort_pairwise _ _ (fieldOrder_total host field asc) (fieldOrder_trans host hv field asc) l
    (fun a _ b _ => fieldCompare_order_iff host field asc a b)

/-- Sorting a list that is in the order of the comparator leaves it as it is. -/
theorem jsSort_of_pairwise {α : Type} (cmp : α → α → JSNum) (s : α → α → Prop)
    [DecidableRel s] (l : List α) (h : ∀ a ∈ l, ∀ b ∈ l, ((cmp a b).order ≤ 0 ↔ s a b))
    (hs : l.Pairwise s) : jsSort cmp l = l := by
  unfold jsSort
  rw [insertionSort_congr _ s l h]
  exact List.Sorted.insertionSort_eq hs

/-- Sorting by the same field in the same direction a second time changes nothing. -/
theorem jsSort_fieldCompare_idem (host : DateHost) (hv : validDates host) (field : Field)
    (asc : Bool) (l : List Episode) :
    jsSort (fieldCompare host field asc) (jsSort (fieldCompare host field asc) l) =
      jsSort (fieldCompare host field asc) l :=
  jsSort_of_pairwise _ (fieldOrder host field asc) _
    (fun a _ b _ => fieldCompare_order_iff host field asc a b)
    (jsSort_fieldCompare_pairwise host hv field asc l)


theorem makeDay_january_first (y : Int) : makeDay y 0 1 = dayFromYear y := by
  simp [makeDay, daysBeforeMonth]

/-- The host in the time zone UTC puts 1 January of a year at this time value. -/
theorem utcMakeTime_january_first (y : Nat) (hy : y ≤ 9999) :
    utcMakeTime (.int y) (.int 0) (.int 1) =
      .int (dayFromYear (if (y : Int) ≤ 99 then 1900 + y else y) * 86400000) := by
  unfold utcMakeTime
  simp only [makeDay_january_first]
  have h0 : (0 : Int) ≤ y := Int.ofNat_nonneg y
  simp only [h0, true_and]
  unfold timeClip dayFromYear
  split
  · rename_i h99
    rw [if_pos]
    constructor <;> omega
  · rename_i h99
    rw [if_pos]
    constructor <;> omega

theorem utcHost_validDates (parse : Str → JSNum) : validDates (utcHost parse) := by
  intro y hy
  exact ⟨_, utcMakeTime_january_first y hy⟩

/-- In the time zone UTC the years from 1971 on lie after the epoch, and the years from 100
to 1969 before it. -/
theorem utcHost_dateTime (parse : Str → JSNum) (e : Episode) (y : Nat)
    (h : extractYear e.broadcast_date = some y) :
    (1971 ≤ y → 0 < dateTime (utcHost parse) e) ∧
      (100 ≤ y → y ≤ 1969 → dateTime (utcHost parse) e < 0) := by
  have hy := extractYear_le h
  unfold dateTime parseDate
  simp only [h]
  constructor
  · intro h1
    have hne : y ≠ 0 := by omega
    simp only [hne, ne_eq, not_false_eq_true, if_true, utcHost, utcMakeTime_january_first y hy,
      JSNum.order]
    have : ¬ (y : Int) ≤ 99 := by omega
    simp only [this, if_false, dayFromYear]
    omega
  · intro h1 h2
    have hne : y ≠ 0 := by omega
    simp only [hne, ne_eq, not_false_eq_true, if_true, utcHost, utcMakeTime_january_first y hy,
      JSNum.order]
    have : ¬ (y : Int) ≤ 99 := by omega
    simp only [this, if_false, dayFromYear]
    omega

theorem localDates_validDates (host : DateHost) (hloc : localDates host) : validDates host := by
  intro y hy
  obtain ⟨t, offset, _, hm, _, _⟩ := hloc y hy
  exact ⟨_, hm⟩

/-- The host in the time zone UTC keeps a local time, with no offset. -/
theorem utcHost_localDates (parse : Str → JSNum) : localDates (utcHost parse) := by
  intro y hy
  obtain ⟨t, ht⟩ := utcHost_validDates parse y hy
  refine ⟨t, 0, ht, ?_, by decide, by decide⟩
  rw [ht]
  simp

/-- With a local time the years after 1970 lie after the epoch and the years before 1970 before
it. -/
theorem localDates_dateTime (host : DateHost) (hloc : localDates host) (e : Episode) (y : Nat)
    (h : extractYear e.broadcast_date = some y) :
    (yearBeforeEpoch y → dateTime host e < 0) ∧ (yearAfterEpoch y → 0 < dateTime host e) := by
  have hy := extractYear_le h
  obtain ⟨t, offset, ht, hm, hlo, hhi⟩ := hloc y hy
  rw [utcMakeTime_january_first y hy] at ht
  injection ht with ht
  unfold dateTime parseDate
  simp only [h]
  unfold yearBeforeEpoch yearAfterEpoch
  constructor
  · intro hb
    have hne : y ≠ 0 := by omega
    simp only [hne, ne_eq, not_false_eq_true, if_true, hm, JSNum.order]
    unfold dayFromYear at ht
    split at ht <;> omega
  · intro ha
    have hne : y ≠ 0 := by omega
    simp only [hne, ne_eq, not_false_eq_true, if_true, hm, JSNum.order]
    unfold dayFromYear at ht
    split at ht <;> omega

/-! ## Sorting twice -/

theorem JSNum.lt_self (x : JSNum) : x.lt x = false := by
  cases x <;> simp [JSNum.lt]

theorem sortEpisodes_sort (host : DateHost) (st : State) (field : Field) :
    (sortEpisodes host st field).sort =
      if st.sort.field = field then ⟨st.sort.field, !st.sort.ascending⟩ else ⟨field, true⟩ := by
  unfold sortEpisodes applySortWithRelevance
  simp only
  split <;> rfl

theorem sortEpisodes_filters (host : DateHost) (st : State) (field : Field) :
    (sortEpisodes host st field).filters = st.filters := by
  unfold sortEpisodes applySortWithRelevance
  simp only
  split <;> rfl

theorem sortEpisodes_filtered_relevance (host : DateHost) (st : State) (field : Field)
    (h : st.filters.name ≠ [] ∧ field ≠ Field.relevance) :
    (sortEpisodes host st field).filtered = jsSort (relevanceCompare st.filters.name) st.filtered := by
  have hne : st.filters.name.isEmpty = false := by
    cases hn : st.filters.name
    · exact absurd hn h.1
    · rfl
  unfold sortEpisodes applySortWithRelevance
  simp [hne, h.2]

theorem sortEpisodes_filtered_regular (host : DateHost) (st : State) (field : Field)
    (h : ¬ (st.filters.name ≠ [] ∧ field ≠ Field.relevance)) :
    (sortEpisodes host st field).filtered =
      jsSort (fieldCompare host field (sortEpisodes host st field).sort.ascending) st.filtered := by
  have hs := sortEpisodes_sort host st field
  have hc : (!st.filters.name.isEmpty && decide (field ≠ Field.relevance)) = false := by
    cases hn : st.filters.name with
    | nil => simp
    | cons c cs =>
      have : field = Field.relevance := by
        by_contra hf
        exact h ⟨by simp [hn], hf⟩
      simp [this]
  rw [hs]
  unfold sortEpisodes applySortWithRelevance
  simp only [hc]
  rfl

/-- A list in the order of the relevance sort is left as it is by that sort. -/
theorem jsSort_relevanceCompare_idem (term : Str) (l : List Episode)
    (hrank : ∀ e ∈ l, rankIntegerOrMissing e) :
    jsSort (relevanceCompare term) (jsSort (relevanceCompare term) l) =
      jsSort (relevanceCompare term) l := by
  have hmem : ∀ e ∈ jsSort (relevanceCompare term) l, rankIntegerOrMissing e :=
    fun e he => hrank e ((jsSort_perm _ _).mem_iff.mp he)
  exact jsSort_of_pairwise _ (relevanceOrder term) _
    (fun a ha b hb => relevanceCompare_iff term a b (hmem a ha) (hmem b hb))
    (jsSort_pairwise _ _ (relevanceOrder_total term) (relevanceOrder_trans term) l
      (fun a ha b hb => relevanceCompare_iff term a b (hrank a ha) (hrank b hb)))

/-! ## The search of the second script -/

/-- With an actor for the doctor and for the companion, the filter callback of
`applyFiltersAndSort` decides by the search rule of the specification. -/
theorem filterCallback_with_actors (filterText : Str) (ep : Episode)
    (hd : doctorName ep ≠ []) (hc : companionName ep ≠ []) :
    Filip.filterCallback (toLowerCase filterText) ep = matchesAnyField filterText ep := by
  have h1 : Filip.formatDoctor ep.doctor false = doctorName ep := by
    unfold Filip.formatDoctor doctorName at *
    cases hdoc : ep.doctor with
    | none => simp [hdoc, orEmpty] at hd
    | some d =>
      cases ha : d.actor with
      | none => simp [hdoc, ha, orEmpty] at hd
      | some a =>
        cases a with
        | nil => simp [hdoc, ha, orEmpty] at hd
        | cons x xs => simp [ha, orEmpty]
  have h2 : Filip.formatCompanion ep.companion false = companionName ep := by
    unfold Filip.formatCompanion companionName at *
    cases hcom : ep.companion with
    | none => simp [hcom, orEmpty] at hc
    | some c =>
      cases ha : c.actor with
      | none => simp [hcom, ha, orEmpty] at hc
      | some a =>
        cases a with
        | nil => simp [hcom, ha, orEmpty] at hc
        | cons x xs => simp [ha, orEmpty]
  unfold Filip.filterCallback matchesAnyField
  simp only [h1, h2]

/-! ## The claims -/

/-- C1. After `filterEpisodes`, `state.filtered` holds exactly the episodes of `state.episodes`
that satisfy all four filter predicates, an empty filter value counting as satisfied: it is a
rearrangement of the passing episodes, an episode is in it exactly when it is an episode that
passes, and with all filters empty every episode is kept. -/
theorem filterEpisodes_keeps_exactly_the_passing (host : DateHost) (st : State) :
    (filterEpisodes host st).filtered.Perm
        (st.episodes.filter fun e => decide (passesAllFilters st.filters e)) ∧
      (∀ e, e ∈ (filterEpisodes host st).filtered ↔
        e ∈ st.episodes ∧ passesAllFilters st.filters e) ∧
      (filterEpisodes host { st with filters := {} }).filtered.Perm st.episodes := by
  have hperm : ∀ st : State, (filterEpisodes host st).filtered.Perm
      (st.episodes.filter fun e => decide (passesAllFilters st.filters e)) := by
    intro st
    have h := sortEpisodes_perm host
      { st with filtered := st.episodes.filter (filterCallback st.filters) } st.sort.field
    have heq : (st.episodes.filter fun e => decide (passesAllFilters st.filters e)) =
        st.episodes.filter (filterCallback st.filters) := by
      apply List.filter_congr
      intro e _
      by_cases hp : passesAllFilters st.filters e
      · simp [hp, (filterCallback_iff st.filters e).mpr hp]
      · have : filterCallback st.filters e = false := by
          cases hc : filterCallback st.filters e
          · rfl
          · exact absurd ((filterCallback_iff st.filters e).mp hc) hp
        simp [hp, this]
    rw [heq]
    exact h
  refine ⟨hperm st, ?_, ?_⟩
  · intro e
    rw [(hperm st).mem_iff]
    simp [List.mem_filter]
  · have h := hperm { st with filters := {} }
    have hall : (st.episodes.filter fun e => decide (passesAllFilters ({} : Filters) e)) =
        st.episodes := by
      rw [List.filter_eq_self]
      intro e _
      simp [passesAllFilters]
    simpa [hall] using h

/-- C2. `calculateRelevance` returns 4 when the lower-cased title equals the term, otherwise 3
when the title starts with the term, otherwise 2 when the title contains the term, otherwise
1; for the term `rose` the titles `Rose`, `Rose Tyler Returns` and `The Rose Garden` score 4, 3
and 2. -/
theorem calculateRelevance_scores :
    (∀ (e : Episode) (term : Str),
      (toLowerCase (orEmpty e.title) = term → calculateRelevance e term = 4) ∧
      (toLowerCase (orEmpty e.title) ≠ term →
        startsWith (toLowerCase (orEmpty e.title)) term = true →
          calculateRelevance e term = 3) ∧
      (toLowerCase (orEmpty e.title) ≠ term →
        startsWith (toLowerCase (orEmpty e.title)) term = false →
          includes (toLowerCase (orEmpty e.title)) term = true →
            calculateRelevance e term = 2) ∧
      (toLowerCase (orEmpty e.title) ≠ term →
        startsWith (toLowerCase (orEmpty e.title)) term = false →
          includes (toLowerCase (orEmpty e.title)) term = false →
            calculateRelevance e term = 1)) ∧
    calculateRelevance { title := some "Rose".toList } "rose".toList = 4 ∧
    calculateRelevance { title := some "Rose Tyler Returns".toList } "rose".toList = 3 ∧
    calculateRelevance { title := some "The Rose Garden".toList } "rose".toList = 2 := by
  refine ⟨?_, by decide, by decide, by decide⟩
  intro e term
  unfold calculateRelevance
  refine ⟨?_, ?_, ?_, ?_⟩
  · intro h; simp [h]
  · intro h1 h2; simp [h1, h2]
  · intro h1 h2 h3; simp [h1, h2, h3]
  · intro h1 h2 h3; simp [h1, h2, h3]

/-- Witness of C2: the title `Primrose` contains `rose` without starting with it and scores
2; the title `Blink` does not contain it and scores 1. -/
theorem calculateRelevance_scores_witness :
    calculateRelevance { title := some "Primrose".toList } "rose".toList = 2 ∧
      calculateRelevance { title := some "Blink".toList } "rose".toList = 1 :=
  ⟨(calculateRelevance_scores.1 { title := some "Primrose".toList } "rose".toList).2.2.1
      (by decide) (by decide) (by decide),
    (calculateRelevance_scores.1 { title := some "Blink".toList } "rose".toList).2.2.2
      (by decide) (by decide) (by decide)⟩

/-- C3 as stated fails: of three episodes of the same score, the second with the text `x` as
its rank, `sortEpisodes` with the name filter `rose` leaves the ranks in the order 3, `x`, 1,
so that the rank 3 stays before the rank 1: the difference of ranks that breaks the tie is
`NaN` beside a rank that is not a number. -/
theorem sortEpisodes_relevance_text_rank :
    ((sortEpisodes noDates
        { filtered := textRankEpisodes, filters := { name := "rose".toList } }
        Field.title).filtered.map fun e => e.rank) =
      [JSVal.num 3, JSVal.str "x".toList, JSVal.num 1] ∧
    (textRankEpisodes.map fun e => calculateRelevance e "rose".toList) = [3, 3, 3] ∧
    ¬ (sortEpisodes noDates
        { filtered := textRankEpisodes, filters := { name := "rose".toList } }
        Field.title).filtered.Pairwise (relevanceOrder "rose".toList) := by
  decide

/-- C3, amended. When the name filter is not empty, the requested field is not `relevance` and
every rank in `state.filtered` is an integer or is missing, `sortEpisodes` leaves in
`state.filtered` a permutation of its previous content ordered by relevance score descending
and, between equal scores, by ascending rank (a missing rank counting as 0), whichever field is
requested and whichever direction is set.  So the four episodes `roseEpisodes`, sorted by title
under the name filter `rose`, come out as `Rose` (the title is the term), `Rose Tyler Returns`
(it starts with the term), and then, both containing the term, `Primrose` of rank 3 and
`The Rose Garden` of rank 7. -/
theorem sortEpisodes_relevance_when_name_filter (host : DateHost) (st : State) (field : Field)
    (hname : st.filters.name ≠ []) (hfield : field ≠ Field.relevance)
    (hrank : ∀ e ∈ st.filtered, rankIntegerOrMissing e) :
    (sortEpisodes host st field).filtered.Perm st.filtered ∧
      (sortEpisodes host st field).filtered.Pairwise (relevanceOrder st.filters.name) ∧
      ((sortEpisodes host
          { filtered := roseEpisodes, sort := ⟨Field.title, true⟩,
            filters := { name := "rose".toList } }
          Field.title).filtered.map fun e => e.title) =
        [some "Rose".toList, some "Rose Tyler Returns".toList, some "Primrose".toList,
          some "The Rose Garden".toList] := by
  refine ⟨sortEpisodes_perm host st field, ?_, rfl⟩
  have hne : st.filters.name.isEmpty = false := by
    cases h : st.filters.name
    · exact absurd h hname
    · rfl
  unfold sortEpisodes applySortWithRelevance
  simp only [hne, hfield, ne_eq, not_false_eq_true, decide_True, Bool.not_false, Bool.and_self,
    if_true]
  apply jsSort_pairwise _ _ (relevanceOrder_total _) (relevanceOrder_trans _)
  intro a ha b hb
  exact relevanceCompare_iff _ a b (hrank a ha) (hrank b hb)

/-- Witness of C3: four episodes filtered by `rose` and sorted by title in descending
direction come out by relevance and rank. -/
theorem sortEpisodes_relevance_when_name_filter_witness :
    ("rose".toList ≠ [] ∧ Field.title ≠ Field.relevance ∧
      ∀ e ∈ roseEpisodes, rankIntegerOrMissing e) ∧
    (sortEpisodes noDates
        { filtered := roseEpisodes, sort := ⟨Field.title, true⟩,
          filters := { name := "rose".toList } }
        Field.title).filtered.Pairwise (relevanceOrder "rose".toList) :=
  ⟨⟨by decide, by decide, by decide⟩,
    (sortEpisodes_relevance_when_name_filter noDates
      { filtered := roseEpisodes, sort := ⟨Field.title, true⟩,
        filters := { name := "rose".toList } }
      Field.title (by decide) (by decide) (by decide)).2.1⟩

/-- C4, evaluated on the code: with sort field `rank` and ascending direction
`applyFiltersAndSort` puts the episode of rank 10 before the episode of rank 2, because the
ranks are compared as the strings `10` and `2`; the result is not in numeric rank order. -/
theorem applyFiltersAndSort_rank_compares_strings (host : DateHost) :
    ((Filip.applyFiltersAndSort host
        { episodes := [{ rank := .num 2 }, { rank := .num 10 }],
          sort := ⟨Field.rank, true⟩ }).filtered.map fun e => e.rank) =
      [JSVal.num 10, JSVal.num 2] ∧
    ¬ (Filip.applyFiltersAndSort host
        { episodes := [{ rank := .num 2 }, { rank := .num 10 }],
          sort := ⟨Field.rank, true⟩ }).filtered.Pairwise
          fun a b => rankNumber a ≤ rankNumber b := by
  have h : (Filip.applyFiltersAndSort host
      { episodes := [{ rank := .num 2 }, { rank := .num 10 }],
        sort := ⟨Field.rank, true⟩ }).filtered = [{ rank := .num 10 }, { rank := .num 2 }] := by
    rfl
  rw [h]
  exact ⟨rfl, by simp [rankNumber]⟩

/-- C5 as stated fails: for the date `0000-01-01` the function `extractYear` yields the year
0, whose decade is 0, and the episode is placed in no group. -/
theorem displayDecadeGroups_drops_year_zero :
    extractYear (some "0000-01-01".toList) = some 0 ∧
      displayDecadeGroups { filtered := [{ broadcast_date := some "0000-01-01".toList }] } =
        [] := by
  decide

/-- C5, amended. The groups of `displayDecadeGroups` have distinct keys; the group keyed `d`
holds, up to order, exactly the episodes of `state.filtered` whose extracted year is not zero
and has `floor(y / 10) * 10 = d`; so an episode with a non-zero year `y` is in the group keyed
`floor(y / 10) * 10` and in no other, and an episode for which `extractYear` yields no year,
or the year 0, is in no group.  The two episodes dated `2005-03-26` and `01/04/2005` land in
the single group keyed 2000. -/
theorem displayDecadeGroups_partitions_by_decade (st : State) :
    ((displayDecadeGroups st).map Prod.fst).Nodup ∧
    (∀ g ∈ displayDecadeGroups st,
      g.2.Perm (st.filtered.filter fun e => decide (decadeOf e = some g.1))) ∧
    (∀ e ∈ st.filtered, ∀ y, extractYear e.broadcast_date = some y → y ≠ 0 →
      ∃ g ∈ displayDecadeGroups st, g.1 = y / 10 * 10 ∧ e ∈ g.2) ∧
    (∀ e, extractYear e.broadcast_date = none ∨ extractYear e.broadcast_date = some 0 →
      ∀ g ∈ displayDecadeGroups st, e ∉ g.2) ∧
    displayDecadeGroups { filtered := episodesOf2005 } = [(2000, episodesOf2005)] := by
  obtain ⟨h1, h2, h3⟩ := groupDecades_inv st.filtered
  have hperm : ∀ g ∈ displayDecadeGroups st,
      g.2.Perm (st.filtered.filter fun e => decide (decadeOf e = some g.1)) := by
    intro g hg
    obtain ⟨g0, hg0, rfl⟩ := mem_displayDecadeGroups hg
    simp only
    rw [← h1 g0 hg0]
    exact jsSort_perm _ _
  refine ⟨?_, hperm, ?_, ?_, by decide⟩
  · have hk : (displayDecadeGroups st).map Prod.fst =
        (jsSort (fun a b => JSNum.int ((a.1 : Int) - b.1)) (groupDecades st.filtered)).map
          Prod.fst := by
      simp [displayDecadeGroups, Function.comp_def]
    rw [hk]
    exact (((jsSort_perm _ _).map Prod.fst).nodup_iff).mpr h2
  · intro e he y hy hy0
    have hd : decadeOf e = some (y / 10 * 10) := by simp [decadeOf, hy, hy0]
    obtain ⟨g0, hg0, hk⟩ := List.mem_map.mp (h3 e he _ hd)
    refine ⟨_, displayDecadeGroups_of_mem hg0, hk, ?_⟩
    simp only
    rw [(jsSort_perm _ _).mem_iff, h1 g0 hg0, List.mem_filter]
    exact ⟨he, by simp [hd, hk]⟩
  · intro e he g hg hmem
    have := (hperm g hg).mem_iff.mp hmem
    rw [List.mem_filter] at this
    have hd : decadeOf e = some g.1 := by simpa using this.2
    rcases he with he | he <;> simp [decadeOf, he] at hd

/-- Witness of C5: the episode dated `01/04/2005` is in a group keyed 2000. -/
theorem displayDecadeGroups_partitions_by_decade_witness :
    ∃ g ∈ displayDecadeGroups { filtered := episodesOf2005 },
      g.1 = 2005 / 10 * 10 ∧
        ({ rank := .num 2, title := some "The End of the World".toList,
           broadcast_date := some "01/04/2005".toList } : Episode) ∈ g.2 :=
  (displayDecadeGroups_partitions_by_decade { filtered := episodesOf2005 }).2.2.1
    { rank := .num 2, title := some "The End of the World".toList,
      broadcast_date := some "01/04/2005".toList }
    (by decide) 2005 (by decide) (by decide)

/-- C6 as stated fails: an episode without a rank is placed before an episode of the same
decade whose rank is the number 1000000. -/
theorem displayDecadeGroups_unranked_before_large_rank :
    (displayDecadeGroups
        { filtered := [{ rank := .num 1000000, broadcast_date := some "2005".toList },
                       { broadcast_date := some "2006".toList }] }).map
        (fun g => (g.1, g.2.map fun e => e.rank)) =
      [(2000, [JSVal.undefined, JSVal.num 1000000])] := by
  decide

/-- C6, amended. Within every decade group of `displayDecadeGroups` the episodes whose parsed
rank is not zero are in ascending order of it, and no episode whose rank is missing or cannot
be parsed precedes an episode whose parsed rank is not zero and is below 999999. -/
theorem displayDecadeGroups_rank_order (st : State) :
    ∀ g ∈ displayDecadeGroups st,
      g.2.Pairwise (fun a b => ∀ m n, parseInt a.rank = .int m → parseInt b.rank = .int n →
        m ≠ 0 → n ≠ 0 → m ≤ n) ∧
      g.2.Pairwise (fun a b => parseInt a.rank = .nan →
        ∀ n, parseInt b.rank = .int n → n ≠ 0 → 999999 ≤ n) := by
  intro g hg
  obtain ⟨g0, -, rfl⟩ := mem_displayDecadeGroups hg
  have hs : (jsSort decadeRankCompare g0.2).Pairwise decadeRankOrder := by
    apply jsSort_pairwise _ _ (fun a b => by unfold decadeRankOrder; omega)
      (fun a b c h1 h2 => by unfold decadeRankOrder at *; omega)
    intro a _ b _
    simp [decadeRankCompare, JSNum.order, decadeRankOrder]
  constructor
  · refine hs.imp ?_
    intro a b hab m n hm hn hm0 hn0
    simpa [decadeRankOrder, decadeRank, hm, hn, JSNum.truthy, JSNum.order, hm0, hn0] using hab
  · refine hs.imp ?_
    intro a b hab ha n hn hn0
    simpa [decadeRankOrder, decadeRank, ha, hn, JSNum.truthy, JSNum.order, hn0] using hab

/-- Witness of C6: of four episodes of the decade 2000 the two with the parsed ranks 2 and 5
come first, in that order, and the two without a parsed rank follow. -/
theorem displayDecadeGroups_rank_order_witness :
    (2000, mixedRanksByRank) ∈ displayDecadeGroups { filtered := mixedRanks } ∧
      mixedRanksByRank.Pairwise (fun a b => parseInt a.rank = .nan →
        ∀ n, parseInt b.rank = .int n → n ≠ 0 → 999999 ≤ n) :=
  ⟨by decide,
    (displayDecadeGroups_rank_order { filtered := mixedRanks } (2000, mixedRanksByRank)
      (by decide)).2⟩

/-- C7. `formatFullDate` brings each of the four accepted formats to `YYYY-MM-DD`: a string
in the format ISO is returned unchanged; a string `D/M/YYYY` becomes the year, the month and
the day, month and day padded with a zero to two digits; a string `Month D, YYYY` whose month
name equals one of the twelve English month names up to case becomes the year, the number of
that month and the day, both padded to two digits; a bare `YYYY` becomes `YYYY-01-01`. -/
theorem formatFullDate_normalizes_the_four_formats :
    (∀ s, isoDate s → formatFullDate (some s) = s) ∧
    (∀ day month year, digits12 day → digits12 month → digits4 year →
      formatFullDate (some (day ++ '/' :: month ++ '/' :: year)) =
        year ++ '-' :: padStart2 '0' month ++ '-' :: padStart2 '0' day) ∧
    (∀ name ws1 day ws2 year m i, monthNames[i]? = some m → toLowerCase name = toLowerCase m →
      spaces ws1 → digits12 day → spaces ws2 → digits4 year →
      formatFullDate (some (name ++ (ws1 ++ (day ++ ',' :: (ws2 ++ year))))) =
        year ++ '-' :: padStart2 '0' (natToStr (i + 1)) ++ '-' :: padStart2 '0' day) ∧
    (∀ year, digits4 year → formatFullDate (some year) = year ++ "-01-01".toList) ∧
    (∀ a, padStart2 '0' [a] = ['0', a]) ∧ (∀ a b, padStart2 '0' [a, b] = [a, b]) :=
  ⟨fun _ h => formatFullDate_iso h, fun _ _ _ hd hm hy => formatFullDate_uk hd hm hy,
    fun _ _ _ _ _ _ _ hm hlow h1 hd h2 hy => formatFullDate_long hm hlow h1 hd h2 hy,
    fun _ hy => formatFullDate_year hy, fun _ => rfl, fun _ _ => rfl⟩

/-- Witness of C7: one date of each format. -/
theorem formatFullDate_normalizes_the_four_formats_witness :
    formatFullDate (some "2005-03-26".toList) = "2005-03-26".toList ∧
    formatFullDate (some "1/4/2005".toList) = "2005-04-01".toList ∧
    formatFullDate (some "mArch 7, 1987".toList) = "1987-03-07".toList ∧
    formatFullDate (some "1963".toList) = "1963-01-01".toList :=
  ⟨formatFullDate_normalizes_the_four_formats.1 "2005-03-26".toList
      ⟨"2005".toList, "03".toList, "26".toList,
        ⟨'2', '0', '0', '5', rfl, by decide, by decide, by decide, by decide⟩,
        ⟨'0', '3', rfl, by decide, by decide⟩, ⟨'2', '6', rfl, by decide, by decide⟩, rfl⟩,
    formatFullDate_normalizes_the_four_formats.2.1 "1".toList "4".toList "2005".toList
      (Or.inl ⟨'1', rfl, by decide⟩) (Or.inl ⟨'4', rfl, by decide⟩)
      ⟨'2', '0', '0', '5', rfl, by decide, by decide, by decide, by decide⟩,
    formatFullDate_normalizes_the_four_formats.2.2.1 "mArch".toList " ".toList "7".toList
      " ".toList "1987".toList "March".toList 2 rfl (by decide) ⟨by decide, by decide⟩
      (Or.inl ⟨'7', rfl, by decide⟩) ⟨by decide, by decide⟩
      ⟨'1', '9', '8', '7', rfl, by decide, by decide, by decide, by decide⟩,
    formatFullDate_normalizes_the_four_formats.2.2.2.1 "1963".toList
      ⟨'1', '9', '6', '3', rfl, by decide, by decide, by decide, by decide⟩⟩

/-- C8. For every date string in one of the four recognised formats, extracting the year
after `formatFullDate` agrees with extracting it directly.  (The equation holds for every
input, see `extractYear_formatFullDate_all`.) -/
theorem extractYear_agrees_after_formatFullDate (s : Str) (_ : recognisedDate s) :
    extractYear (some (formatFullDate (some s))) = extractYear (some s) :=
  extractYear_formatFullDate_all (some s)

/-- Witness of C8: the date `01/04/2005` of the format UK. -/
theorem extractYear_agrees_after_formatFullDate_witness :
    recognisedDate "01/04/2005".toList ∧
      extractYear (some (formatFullDate (some "01/04/2005".toList))) =
        extractYear (some "01/04/2005".toList) :=
  have h : recognisedDate "01/04/2005".toList :=
    Or.inr (Or.inl ⟨"01".toList, "04".toList, "2005".toList,
      Or.inr ⟨'0', '1', rfl, by decide, by decide⟩, Or.inr ⟨'0', '4', rfl, by decide, by decide⟩,
      ⟨'2', '0', '0', '5', rfl, by decide, by decide, by decide, by decide⟩, rfl⟩)
  ⟨h, extractYear_agrees_after_formatFullDate "01/04/2005".toList h⟩

/-- C9, evaluated on the code: `extractYear` returns the year 2007 for the long-form string
`Smarch 15, 2007`, whose month name is in no table and which `formatFullDate` leaves as it
is, and for the text `see 2007 notes`, which matches none of the four date patterns. -/
theorem extractYear_reads_a_year_without_a_date_pattern :
    extractYear (some "Smarch 15, 2007".toList) = some 2007 ∧
    longMatch "Smarch 15, 2007".toList =
      some ("Smarch".toList, "15".toList, "2007".toList) ∧
    monthIndex "Smarch".toList = none ∧
    formatFullDate (some "Smarch 15, 2007".toList) = "Smarch 15, 2007".toList ∧
    extractYear (some "see 2007 notes".toList) = some 2007 ∧
    isoMatch "see 2007 notes".toList = none ∧ ukMatch "see 2007 notes".toList = none ∧
    longMatch "see 2007 notes".toList = none ∧ yearMatch "see 2007 notes".toList = none := by
  decide

/-- C10. `escapeCSV(v)` is the string form of `v` (the empty string for `null` and
`undefined`), returned unchanged when it contains no comma, no double quote and no newline,
and otherwise wrapped in one pair of double quotes with every double quote in it replaced by
two double quotes. -/
theorem escapeCSV_plain_or_quoted (v : JSVal) :
    (Filip.stringValue JSVal.null = [] ∧ Filip.stringValue JSVal.undefined = []) ∧
    ((∀ c ∈ Filip.stringValue v, c ≠ ',' ∧ c ≠ '"' ∧ c ≠ '\n') →
      Filip.escapeCSV v = Filip.stringValue v) ∧
    ((∃ c ∈ Filip.stringValue v, c = ',' ∨ c = '"' ∨ c = '\n') →
      Filip.escapeCSV v =
        '"' :: ((Filip.stringValue v).flatMap fun c => if c = '"' then ['"', '"'] else [c])
          ++ ['"']) := by
  have hrep : ∀ s : Str, Filip.replaceQuotes s =
      s.flatMap fun c => if c = '"' then ['"', '"'] else [c] := by
    intro s
    induction s with
    | nil => rfl
    | cons c cs ih =>
      by_cases hc : c = '"'
      · simp [Filip.replaceQuotes, hc, ih]
      · simp [Filip.replaceQuotes, hc, ih]
  refine ⟨⟨rfl, rfl⟩, ?_, ?_⟩
  · intro h
    have : Filip.needsQuoting (Filip.stringValue v) = false := by
      unfold Filip.needsQuoting
      rw [List.any_eq_false]
      intro c hc
      have := h c hc
      simp [this.1, this.2.1, this.2.2]
    simp [Filip.escapeCSV, this]
  · rintro ⟨c, hc, h⟩
    have : Filip.needsQuoting (Filip.stringValue v) = true := by
      unfold Filip.needsQuoting
      rw [List.any_eq_true]
      refine ⟨c, hc, ?_⟩
      rcases h with h | h | h <;> simp [h]
    simp [Filip.escapeCSV, this, hrep]

/-- Witness of C10: a rank is written as it is, and a text with a comma and a double quote
is wrapped and its quote is doubled. -/
theorem escapeCSV_plain_or_quoted_witness :
    Filip.escapeCSV (.num 12) = "12".toList ∧
      Filip.escapeCSV (.str ['a', '"', 'b', ',', 'c']) =
        ['"', 'a', '"', '"', 'b', ',', 'c', '"'] :=
  ⟨(escapeCSV_plain_or_quoted (.num 12)).2.1 (by decide),
    (escapeCSV_plain_or_quoted (.str ['a', '"', 'b', ',', 'c'])).2.2
      ⟨',', by decide, Or.inl rfl⟩⟩

/-- C11. For every row of string cells, joining the `escapeCSV` image of each cell with
commas, as `exportToCSV` does, and then splitting the line on the commas outside double-quoted
sections, stripping the enclosing quotes and reading a doubled quote as one quote, returns the
original cells, in order and in number.  The rows are those with at least one cell: the header
row and every data row that `exportToCSV` writes have ten cells. -/
theorem splitCSV_recovers_csvRow (row : List Str) (h : row ≠ []) :
    splitCSV (Filip.csvRow (row.map JSVal.str)) = row ∧
      Filip.headers.length = 10 ∧
      ∀ (host : DateHost) (fullYear : JSNum → JSNum) (ep : Episode),
        (Filip.dataRow host fullYear ep).length = 10 := by
  refine ⟨?_, rfl, fun _ _ _ => rfl⟩
  obtain ⟨cell, cells, rfl⟩ := List.exists_cons_of_ne_nil h
  exact splitCSV_csvRow cell cells

/-- Witness of C11: a row of four cells, among them one with a comma and a quote, an empty one
and one with a newline. -/
theorem splitCSV_recovers_csvRow_witness :
    [['a'], ['b', ',', '"', 'c'], [], ['d', '\n']] ≠ ([] : List Str) ∧
      splitCSV (Filip.csvRow ([['a'], ['b', ',', '"', 'c'], [], ['d', '\n']].map JSVal.str)) =
        [['a'], ['b', ',', '"', 'c'], [], ['d', '\n']] :=
  ⟨by decide,
    (splitCSV_recovers_csvRow [['a'], ['b', ',', '"', 'c'], [], ['d', '\n']] (by decide)).1⟩

/-- C12. In filip's `validateData` a record receives a duplicate-rank warning exactly when its
rank is a number equal to the rank of one of the records before it in the batch, so that the
first record that carries a rank receives none; the duplicate-rank warnings, read in order,
are about exactly the records that repeat an earlier rank, and there are as many of them as
there are such records. -/
theorem validateData_duplicate_rank_warnings (host : DateHost) (now : Int)
    (eps : List Episode) :
    (∀ i t r, Filip.Warning.duplicateRank i t r ∈ Filip.validateData host now eps ↔
      ∃ e, eps[i]? = some e ∧ e.title = t ∧ e.rank = .num r ∧
        ∃ x ∈ eps.take i, x.rank = .num r) ∧
    (Filip.validateData host now eps).filterMap duplicateAt =
      (List.range eps.length).filter (repeatsEarlierRank eps) ∧
    ((Filip.validateData host now eps).filterMap duplicateAt).length =
      (List.range eps.length).countP (repeatsEarlierRank eps) := by
  have hidx : (Filip.validateData host now eps).filterMap duplicateAt =
      (List.range eps.length).filter (repeatsEarlierRank eps) := by
    rw [validateData_unroll, List.filterMap_flatMap, ← flatMap_if_singleton]
    apply List.flatMap_congr
    intro i _
    exact warningsAt_duplicateAt host now eps i
  refine ⟨?_, hidx, ?_⟩
  · intro i t r
    rw [validateData_unroll, List.mem_flatMap]
    constructor
    · rintro ⟨j, _, hj⟩
      unfold warningsAt at hj
      cases hg : eps[j]? with
      | none => simp [hg] at hj
      | some e =>
        simp only [hg] at hj
        obtain ⟨h1, h2, h3, h4⟩ := (episodeWarnings_duplicateRank _ _ _ _ _ _ _ _).mp hj
        subst h1
        exact ⟨e, hg, h2, h3, (mem_seenRanksOf _ _).mp h4⟩
    · rintro ⟨e, hg, h2, h3, h4⟩
      have hlt : i < eps.length := by
        by_contra hc
        rw [List.getElem?_eq_none (by omega)] at hg
        cases hg
      refine ⟨i, List.mem_range.mpr hlt, ?_⟩
      unfold warningsAt
      simp only [hg]
      exact (episodeWarnings_duplicateRank _ _ _ _ _ _ _ _).mpr
        ⟨rfl, h2, h3, (mem_seenRanksOf _ _).mpr h4⟩
  · rw [hidx, List.countP_eq_length_filter]


/-- C13. In filip's `validateData`, for a record and each of the four required fields `rank`,
`title`, `era` and `broadcast_date`, the output holds exactly one missing-required-field
warning about that record that names the field when the value of the field is `undefined`,
`null` or the empty string, and none otherwise. -/
theorem validateData_missing_required_field (host : DateHost) (now : Int)
    (eps : List Episode) (i : Nat) (e : Episode) (f : Field) (hi : eps[i]? = some e)
    (hf : f ∈ Filip.requiredFields) :
    Filip.requiredFields = [Field.rank, Field.title, Field.era, Field.broadcast_date] ∧
    ((e.get f = .undefined ∨ e.get f = .null ∨ e.get f = .str []) →
      (Filip.validateData host now eps).countP (isMissingFieldAt i f) = 1 ∧
        Filip.Warning.missingField i e.title f ∈ Filip.validateData host now eps) ∧
    (¬ (e.get f = .undefined ∨ e.get f = .null ∨ e.get f = .str []) →
      (Filip.validateData host now eps).countP (isMissingFieldAt i f) = 0) := by
  have hc := validateData_countP_missingFieldAt host now eps i e f hi hf
  refine ⟨rfl, ?_, ?_⟩
  · intro h
    have hm := (isMissing_iff _).mpr h
    rw [hm] at hc
    refine ⟨hc, ?_⟩
    have hlt : i < eps.length := by
      by_contra hx
      rw [List.getElem?_eq_none (by omega)] at hi
      cases hi
    rw [validateData_unroll, List.mem_flatMap]
    refine ⟨i, List.mem_range.mpr hlt, ?_⟩
    unfold warningsAt
    simp only [hi]
    unfold Filip.episodeWarnings Filip.missingFieldWarnings
    simp only [List.mem_append, List.mem_map, List.mem_filter]
    exact Or.inl (Or.inl (Or.inl ⟨f, ⟨hf, hm⟩, rfl⟩))
  · intro h
    have hm : ¬ Filip.isMissing (e.get f) = true := fun x => h ((isMissing_iff _).mp x)
    simpa [hm] using hc


/-- Witness of C13: a record without a title and with an empty era gets one warning for each
of the two fields and none for its rank. -/
theorem validateData_missing_required_field_witness :
    (Filip.validateData noDates 0
        [{ rank := .num 1, era := some [], broadcast_date := some "2005".toList }]).countP
        (isMissingFieldAt 0 Field.era) = 1 ∧
    (Filip.validateData noDates 0
        [{ rank := .num 1, era := some [], broadcast_date := some "2005".toList }]).countP
        (isMissingFieldAt 0 Field.rank) = 0 :=
  ⟨((validateData_missing_required_field noDates 0
      [{ rank := .num 1, era := some [], broadcast_date := some "2005".toList }] 0
      { rank := .num 1, era := some [], broadcast_date := some "2005".toList } Field.era
      rfl (by decide)).2.1 (Or.inr (Or.inr rfl))).1,
    (validateData_missing_required_field noDates 0
      [{ rank := .num 1, era := some [], broadcast_date := some "2005".toList }] 0
      { rank := .num 1, era := some [], broadcast_date := some "2005".toList } Field.rank
      rfl (by decide)).2.2 (by decide)⟩

/-- C14, evaluated on the code: filip's `validateData` has no warning at all for a batch of two
complete records with the ranks 0 and -3, on 5 November 2026 in the time zone UTC; in
particular neither record receives an invalid-rank warning. -/
theorem validateData_accepts_rank_zero_and_negative (parse : Str → JSNum) :
    Filip.validateData (utcHost parse) 1793836800000
        [{ rank := .num 0, title := some "Rose".toList, era := some "Modern".toList,
           broadcast_date := some "2005".toList },
         { rank := .num (-3), title := some "Blink".toList, era := some "Modern".toList,
           broadcast_date := some "2007".toList }] = [] := by
  rfl

/-- C15, evaluated on the code: in the year 2026 matej's `validateData` has no warning for a
record dated 25 December 2026, which lies after every moment of that year before Christmas;
the year alone is compared.  A text that is no date but holds the number 2099 is warned
about. -/
theorem validateData_misses_a_date_later_this_year :
    Matej.validateData 2026
        [{ rank := .num 1, title := some "Joy to the World".toList,
           broadcast_date := some "2026-12-25".toList }] = [] ∧
    Matej.validateData 2026
        [{ rank := .num 1, title := some "Joy to the World".toList,
           broadcast_date := some "see 2099 notes".toList }] =
      [Matej.Warning.futureDate 0 (some "see 2099 notes".toList)] := by
  decide

/-- C16 as stated fails: two episodes of the ranks 1 and 2 are put in the order 2, 1 by a
first `sortEpisodes('rank')` and in the order 1, 2 by a second one. -/
theorem sortEpisodes_second_call_reverses :
    ((sortEpisodes noDates { filtered := [{ rank := .num 1 }, { rank := .num 2 }] }
        Field.rank).filtered.map fun e => e.rank) = [JSVal.num 2, JSVal.num 1] ∧
    ((sortEpisodes noDates
        (sortEpisodes noDates { filtered := [{ rank := .num 1 }, { rank := .num 2 }] }
          Field.rank) Field.rank).filtered.map fun e => e.rank) =
      [JSVal.num 1, JSVal.num 2] := by
  decide

/-- C16, amended. For every state and every field, a second call `sortEpisodes(field)` right
after a first one toggles the direction.  When the relevance sort applies (the name filter is
not empty and the field is not `relevance`) the second call leaves the order of
`state.filtered` exactly as the first call left it.  Otherwise the second call sorts what the
first call left by the same field in the opposite direction, and sorting it once more by the
same field in the direction of the first call would change nothing. -/
theorem sortEpisodes_twice (host : DateHost) (st : State) (field : Field) :
    (sortEpisodes host (sortEpisodes host st field) field).sort.field = field ∧
    (sortEpisodes host (sortEpisodes host st field) field).sort.ascending =
      !(sortEpisodes host st field).sort.ascending ∧
    (st.filters.name ≠ [] ∧ field ≠ Field.relevance →
      (sortEpisodes host (sortEpisodes host st field) field).filtered =
        (sortEpisodes host st field).filtered) ∧
    (¬ (st.filters.name ≠ [] ∧ field ≠ Field.relevance) →
      (sortEpisodes host (sortEpisodes host st field) field).filtered =
          jsSort (fieldCompare host field (!(sortEpisodes host st field).sort.ascending))
            (sortEpisodes host st field).filtered ∧
        jsSort (fieldCompare host field (sortEpisodes host st field).sort.ascending)
            (sortEpisodes host st field).filtered =
          (sortEpisodes host st field).filtered) := by
  have hf1 : (sortEpisodes host st field).sort.field = field := by
    rw [sortEpisodes_sort]
    split
    · assumption
    · rfl
  have hs2 := sortEpisodes_sort host (sortEpisodes host st field) field
  simp only [hf1, if_true] at hs2
  refine ⟨by rw [hs2], by rw [hs2], ?_, ?_⟩
  · intro h
    have h2 : (sortEpisodes host st field).filters.name ≠ [] ∧ field ≠ Field.relevance := by
      rw [sortEpisodes_filters]
      exact h
    rw [sortEpisodes_filtered_relevance host _ field h2, sortEpisodes_filters,
      sortEpisodes_filtered_relevance host st field h]
    exact jsSort_idem _ (relevanceCompare_total _) _
  · intro h
    have h2 : ¬ ((sortEpisodes host st field).filters.name ≠ [] ∧ field ≠ Field.relevance) := by
      rw [sortEpisodes_filters]
      exact h
    constructor
    · rw [sortEpisodes_filtered_regular host _ field h2, hs2]
    · have h1 := sortEpisodes_filtered_regular host st field h
      rw [h1]
      exact jsSort_idem _ (fieldCompare_total host field _) _

/-- Witness of C16: with the name filter `rose` a second sort by title leaves the three
episodes `textRankEpisodes`, one of them with a text as its rank, as the first sort left
them. -/
theorem sortEpisodes_twice_witness :
    ("rose".toList ≠ [] ∧ Field.title ≠ Field.relevance) ∧
    (sortEpisodes noDates
        (sortEpisodes noDates
          { filtered := textRankEpisodes, filters := { name := "rose".toList } } Field.title)
        Field.title).filtered =
      (sortEpisodes noDates
        { filtered := textRankEpisodes, filters := { name := "rose".toList } }
        Field.title).filtered :=
  ⟨⟨by decide, by decide⟩,
    (sortEpisodes_twice noDates
      { filtered := textRankEpisodes, filters := { name := "rose".toList } } Field.title).2.2.1
      ⟨by decide, by decide⟩⟩

/-- C17 as stated fails: in the time zone UTC an episode of 23 November 1963 is placed before
an episode whose date cannot be parsed, in ascending direction. -/
theorem sortEpisodes_unparsed_after_1963 :
    ((sortEpisodes (utcHost fun _ => .nan)
        { filtered := [{ broadcast_date := some "to be announced".toList },
                       { broadcast_date := some "1963-11-23".toList }] }
        Field.broadcast_date).filtered.map fun e => e.broadcast_date) =
      [some "1963-11-23".toList, some "to be announced".toList] ∧
    (sortEpisodes (utcHost fun _ => .nan)
        { filtered := [{ broadcast_date := some "to be announced".toList },
                       { broadcast_date := some "1963-11-23".toList }] }
        Field.broadcast_date).sort.ascending = true := by
  decide

/-- C17, amended. With no name filter, the sort field `broadcast_date` and ascending resulting
direction, on a host that keeps a local time, `sortEpisodes` leaves `state.filtered` in the
order of the time values of `parseDate`: that of 1 January of the parsed year, a year from 1 to
99 standing for the year 1900 + year, and the time value 0 of the epoch for a date that cannot
be parsed (no year is found, or the year 0).  A parsed year before 1970 (1 to 69, 100 to 1969)
has a time value below 0 and a parsed year after 1970 (71 to 99, 1971 and later) a time value
above 0.  So no episode of a parsed year after 1970 comes before an episode whose date cannot
be parsed, and no episode whose date cannot be parsed comes before an episode of a parsed year
before 1970. -/
theorem sortEpisodes_broadcast_date_ascending (host : DateHost) (st : State)
    (hloc : localDates host) (hname : st.filters.name = [])
    (hasc : (sortEpisodes host st Field.broadcast_date).sort.ascending = true) :
    (sortEpisodes host st Field.broadcast_date).filtered.Perm st.filtered ∧
    (sortEpisodes host st Field.broadcast_date).filtered.Pairwise
      (fun a b => dateTime host a ≤ dateTime host b) ∧
    (∀ e, unparsedDate e → dateTime host e = 0) ∧
    (∀ e y, extractYear e.broadcast_date = some y →
      (yearBeforeEpoch y → dateTime host e < 0) ∧ (yearAfterEpoch y → 0 < dateTime host e)) ∧
    (sortEpisodes host st Field.broadcast_date).filtered.Pairwise
      (fun a b => (unparsedDate b → dateTime host a ≤ 0) ∧
        (unparsedDate a → 0 ≤ dateTime host b)) ∧
    (sortEpisodes host st Field.broadcast_date).filtered.Pairwise
      (fun a b =>
        (unparsedDate b → ∀ y, extractYear a.broadcast_date = some y → ¬ yearAfterEpoch y) ∧
        (unparsedDate a → ∀ y, extractYear b.broadcast_date = some y → ¬ yearBeforeEpoch y)) := by
  have hv : validDates host := localDates_validDates host hloc
  have hzero : ∀ e, unparsedDate e → dateTime host e = 0 := by
    intro e he
    unfold dateTime parseDate
    rcases he with he | he <;> simp [he, JSNum.order]
  have hreg : ¬ (st.filters.name ≠ [] ∧ Field.broadcast_date ≠ Field.relevance) := by
    simp [hname]
  have hsorted : (sortEpisodes host st Field.broadcast_date).filtered.Pairwise
      (fun a b => dateTime host a ≤ dateTime host b) := by
    rw [sortEpisodes_filtered_regular host st _ hreg, hasc]
    refine (jsSort_fieldCompare_pairwise host hv Field.broadcast_date true st.filtered).imp ?_
    intro a b hab
    obtain ⟨x, hx⟩ := parseDate_int host hv a.broadcast_date
    obtain ⟨y, hy⟩ := parseDate_int host hv b.broadcast_date
    simp only [fieldOrder, if_true, fieldLt, hx, hy, JSNum.lt] at hab
    simp only [dateTime, hx, hy, JSNum.order]
    simpa using hab
  refine ⟨sortEpisodes_perm host st _, hsorted, hzero, localDates_dateTime host hloc,
    hsorted.imp ?_, hsorted.imp ?_⟩
  · intro a b hab
    constructor
    · intro hb
      rw [hzero b hb] at hab
      exact hab
    · intro ha
      rw [hzero a ha] at hab
      exact hab
  · intro a b hab
    constructor
    · intro hb y hy hafter
      rw [hzero b hb] at hab
      have := (localDates_dateTime host hloc a y hy).2 hafter
      omega
    · intro ha y hy hbefore
      rw [hzero a ha] at hab
      have := (localDates_dateTime host hloc b y hy).1 hbefore
      omega

/-- Witness of C17: in the time zone UTC, of four episodes the one of 1963 comes first, the one
without a date second, the one of the year written `0085`, which stands for 1985, third and the
one of 2005 last. -/
theorem sortEpisodes_broadcast_date_ascending_witness :
    (localDates (utcHost fun _ => .nan) ∧ ([] : Str) = [] ∧
      (sortEpisodes (utcHost fun _ => .nan)
        { filtered := [{ broadcast_date := some "2005-03-26".toList }, { },
                       { broadcast_date := some "0085-01-01".toList },
                       { broadcast_date := some "1963-11-23".toList }] }
        Field.broadcast_date).sort.ascending = true) ∧
    ((sortEpisodes (utcHost fun _ => .nan)
        { filtered := [{ broadcast_date := some "2005-03-26".toList }, { },
                       { broadcast_date := some "0085-01-01".toList },
                       { broadcast_date := some "1963-11-23".toList }] }
        Field.broadcast_date).filtered.map fun e => e.broadcast_date) =
      [some "1963-11-23".toList, none, some "0085-01-01".toList, some "2005-03-26".toList] ∧
    (sortEpisodes (utcHost fun _ => .nan)
        { filtered := [{ broadcast_date := some "2005-03-26".toList }, { },
                       { broadcast_date := some "0085-01-01".toList },
                       { broadcast_date := some "1963-11-23".toList }] }
        Field.broadcast_date).filtered.Pairwise
      (fun a b =>
        (unparsedDate b → ∀ y, extractYear a.broadcast_date = some y → ¬ yearAfterEpoch y) ∧
        (unparsedDate a → ∀ y, extractYear b.broadcast_date = some y → ¬ yearBeforeEpoch y)) :=
  ⟨⟨utcHost_localDates _, rfl, by decide⟩, by decide,
    (sortEpisodes_broadcast_date_ascending (utcHost fun _ => .nan)
      { filtered := [{ broadcast_date := some "2005-03-26".toList }, { },
                     { broadcast_date := some "0085-01-01".toList },
                     { broadcast_date := some "1963-11-23".toList }] }
      (utcHost_localDates _) rfl (by decide)).2.2.2.2.2⟩

/-- C18, evaluated on the code: sorted by `broadcast_date` in ascending direction, an episode
of 25 December 2005 stays before an episode of 26 March 2005, whatever the host: `parseDate`
keeps the year only. -/
theorem sortEpisodes_same_year_keeps_order (host : DateHost) :
    ((sortEpisodes host
        { filtered := [{ broadcast_date := some "2005-12-25".toList },
                       { broadcast_date := some "2005-03-26".toList }] }
        Field.broadcast_date).filtered.map fun e => e.broadcast_date) =
      [some "2005-12-25".toList, some "2005-03-26".toList] ∧
    (sortEpisodes host
        { filtered := [{ broadcast_date := some "2005-12-25".toList },
                       { broadcast_date := some "2005-03-26".toList }] }
        Field.broadcast_date).sort.ascending = true := by
  have h1 : extractYear (some "2005-12-25".toList) = some 2005 := by decide
  have h2 : extractYear (some "2005-03-26".toList) = some 2005 := by decide
  have hlt : fieldLt host Field.broadcast_date
      { broadcast_date := some "2005-12-25".toList }
      { broadcast_date := some "2005-03-26".toList } = false := by
    unfold fieldLt parseDate
    simp only [h1, h2]
    exact JSNum.lt_self _
  have hlt2 : fieldLt host Field.broadcast_date
      { broadcast_date := some "2005-03-26".toList }
      { broadcast_date := some "2005-12-25".toList } = false := by
    unfold fieldLt parseDate
    simp only [h1, h2]
    exact JSNum.lt_self _
  have hreg : ¬ (([] : Str) ≠ [] ∧ Field.broadcast_date ≠ Field.relevance) := by simp
  refine ⟨?_, rfl⟩
  rw [sortEpisodes_filtered_regular host _ _ hreg]
  have hasc : (sortEpisodes host
      { filtered := [{ broadcast_date := some "2005-12-25".toList },
                     { broadcast_date := some "2005-03-26".toList }] }
      Field.broadcast_date).sort.ascending = true := rfl
  rw [hasc]
  have hcmp : (fieldCompare host Field.broadcast_date true
      { broadcast_date := some "2005-12-25".toList }
      { broadcast_date := some "2005-03-26".toList }).order ≤ 0 := by
    rw [fieldCompare_eq, hlt, hlt2]
    decide
  simp only [jsSort, List.insertionSort, List.orderedInsert, hcmp, if_true, List.map_cons,
    List.map_nil]

/-- C19, evaluated on the code: with no filter set and the sort by rank ascending, one run of
`filterEpisodes` leaves two episodes in the order 2, 1 of their ranks and a second run in the
order 1, 2: every run toggles the direction through `sortEpisodes`. -/
theorem filterEpisodes_second_run_reverses (host : DateHost) :
    ((filterEpisodes host { episodes := [{ rank := .num 1 }, { rank := .num 2 }] }).filtered.map
        fun e => e.rank) = [JSVal.num 2, JSVal.num 1] ∧
    ((filterEpisodes host
        (filterEpisodes host
          { episodes := [{ rank := .num 1 }, { rank := .num 2 }] })).filtered.map
        fun e => e.rank) = [JSVal.num 1, JSVal.num 2] :=
  ⟨rfl, rfl⟩

/-- C20, evaluated on the code: from the initial state, `loadEpisodes` leaves a dataset of the
ranks 2, 1, 3 in the order 3, 2, 1 and the direction descending, because `sortEpisodes('rank')`
finds `rank` as the current field and toggles the direction before it sorts. -/
theorem loadEpisodes_sorts_rank_descending (host : DateHost) :
    initialState.sort = ⟨Field.rank, true⟩ ∧ initialState.filters = {} ∧
    ((loadEpisodes host initialState
        [{ rank := .num 2 }, { rank := .num 1 }, { rank := .num 3 }]).filtered.map
        fun e => e.rank) = [JSVal.num 3, JSVal.num 2, JSVal.num 1] ∧
    (loadEpisodes host initialState
        [{ rank := .num 2 }, { rank := .num 1 }, { rank := .num 3 }]).sort.ascending = false :=
  ⟨rfl, rfl, rfl, rfl⟩

/-- C21, evaluated on the code: with the filter text `N/A` the second script's
`applyFiltersAndSort` keeps an episode that has no doctor and no companion, although the
lower-cased text is a substring of none of its lower-cased title, doctor actor name, companion
actor name, writer and director with an absent field read as the empty string. The callback searches
the text `N/A` that `formatDoctor` and `formatCompanion` return for a missing value; with a
filter text that the placeholder does not contain, such as `Tennant`, the same episode is
dropped. -/
theorem applyFiltersAndSort_matches_placeholder (host : DateHost) :
    (Filip.applyFiltersAndSort host
        { episodes := [episodeWithoutDoctor], filters := { name := "N/A".toList } }).filtered =
      [episodeWithoutDoctor] ∧
    matchesAnyField "N/A".toList episodeWithoutDoctor = false ∧
    Filip.formatDoctor episodeWithoutDoctor.doctor false = "N/A".toList ∧
    Filip.formatCompanion episodeWithoutDoctor.companion false = "N/A".toList ∧
    (Filip.applyFiltersAndSort host
        { episodes := [episodeWithoutDoctor], filters := { name := "Tennant".toList } }).filtered =
      [] := by
  refine ⟨rfl, by decide, rfl, rfl, rfl⟩

end DoctorWho
